import Mathlib

/-!
Verification development for the Chainguard Dockerfile-converter VS Code
extension.  The TypeScript sources (converter, scanner, VEX feed client,
dependency parsers, Wolfi package search) are shallowly embedded below:
strings are Lean `String`s manipulated character-wise, the small regular
expressions used by the code are embedded as explicit character scanners
with the same matching semantics, and fallible I/O boundaries (file reads,
network fetches, subprocesses) are made explicit `Option` parameters.
-/

set_option linter.unusedVariables false

namespace Dfc

/-! ## Character-level string utilities

JavaScript string primitives (trim, toUpperCase, includes, split, ...) are
embedded as character-list operations so that everything reduces in the
kernel.  `\s` is modelled by `Char.isWhitespace`, which agrees with the
JavaScript class on the ASCII whitespace actually present in manifests. -/

abbrev Chars := List Char

def isWS (c : Char) : Bool := c.isWhitespace

/-- Occurrence test for a list as a contiguous segment (JS `includes`). -/
def infixOf (pat : Chars) (l : Chars) : Bool :=
  pat.isPrefixOf l ||
    match l with
    | [] => false
    | _ :: t => infixOf pat t

def strContains (s pat : String) : Bool := infixOf pat.data s.data

def strStartsWith (s p : String) : Bool := p.data.isPrefixOf s.data

def strEndsWith (s p : String) : Bool := p.data.isSuffixOf s.data

def strTrim (s : String) : String :=
  ⟨((s.data.dropWhile isWS).reverse.dropWhile isWS).reverse⟩

def strTrimEnd (s : String) : String :=
  ⟨(s.data.reverse.dropWhile isWS).reverse⟩

def strToUpper (s : String) : String := ⟨s.data.map Char.toUpper⟩

def strToLower (s : String) : String := ⟨s.data.map Char.toLower⟩

def strDropRight (s : String) (n : Nat) : String := ⟨s.data.take (s.data.length - n)⟩

def strLength (s : String) : Nat := s.data.length

/-- Leading-whitespace capture, JS `str.match(/^(\s*)/)[1]`. -/
def leadingWS (s : String) : String := ⟨s.data.takeWhile isWS⟩

/-- JS `String.prototype.split` with a single-character separator. -/
def splitOnChar (c : Char) : Chars → List Chars
  | [] => [[]]
  | x :: xs =>
    match splitOnChar c xs with
    | [] => [[]]
    | g :: gs => if x == c then [] :: g :: gs else (x :: g) :: gs

/-- JS `String.prototype.split` with a (nonempty) string separator.  The
fuel is the input length; every step consumes at least one character, so the
fuel-zero default only ever sees the empty input, where it agrees with the
match. -/
def splitOnListF (sep : Chars) : Nat → Chars → List Chars
  | 0, _ => [[]]
  | fuel + 1, cs =>
    match cs with
    | [] => [[]]
    | x :: xs =>
      if sep.isPrefixOf (x :: xs) && !sep.isEmpty then
        [] :: splitOnListF sep fuel ((x :: xs).drop sep.length)
      else
        match splitOnListF sep fuel xs with
        | [] => [[]]
        | g :: gs => (x :: g) :: gs

def splitOnList (sep : Chars) (cs : Chars) : List Chars :=
  splitOnListF sep cs.length cs

/-- JS `str.split(/\s+/)` after a trim: the maximal whitespace-free words. -/
def wordsAcc (acc : Chars) : Chars → List Chars
  | [] => if acc.isEmpty then [] else [acc.reverse]
  | c :: t =>
    if isWS c then
      if acc.isEmpty then wordsAcc [] t else acc.reverse :: wordsAcc [] t
    else wordsAcc (c :: acc) t

def words (cs : Chars) : List Chars := wordsAcc [] cs

/-- JS `Array.prototype.join`. -/
def joinWith (sep : String) : List String → String
  | [] => ""
  | [x] => x
  | x :: y :: xs => x ++ sep ++ joinWith sep (y :: xs)

/-- JS `mapped.split(':')[0]` — everything before the first colon. -/
def takeUntilColon (s : String) : String := ⟨s.data.takeWhile (fun c => !(c == ':'))⟩

/-! ## Tiny pattern language

The converter's replacement regexes are sequences of literals, `\s+`, `\s*`
and optional literals.  Every literal in these patterns starts with a
non-whitespace character, so maximal munch on the whitespace classes agrees
with the backtracking regex semantics. -/

inductive PTok where
  | lit (s : String)
  | ws1
  | ws0
  | optLit (s : String)

def matchLit (pat : String) (cs : Chars) : Option Chars :=
  if pat.data.isPrefixOf cs then some (cs.drop pat.data.length) else none

def matchPat : List PTok → Chars → Option Chars
  | [], cs => some cs
  | .lit s :: ps, cs =>
    match matchLit s cs with
    | some r => matchPat ps r
    | none => none
  | .ws1 :: ps, cs =>
    if (cs.takeWhile isWS).isEmpty then none else matchPat ps (cs.dropWhile isWS)
  | .ws0 :: ps, cs => matchPat ps (cs.dropWhile isWS)
  | .optLit s :: ps, cs =>
    if s.data.isPrefixOf cs then matchPat ps (cs.drop s.data.length) else matchPat ps cs

/-- JS `str.replace(pattern, repl)` with the `g` flag: leftmost scan,
resuming after each replaced segment.  (All patterns used below match at
least two characters, so the length guard is never the deciding branch.) -/
def replaceAllPatF (pat : List PTok) (repl : String) : Nat → Chars → Chars
  | 0, _ => []
  | fuel + 1, cs =>
    match cs with
    | [] => []
    | c :: t =>
      match matchPat pat (c :: t) with
      | some rest =>
        if rest.length < (c :: t).length then repl.data ++ replaceAllPatF pat repl fuel rest
        else c :: replaceAllPatF pat repl fuel t
      | none => c :: replaceAllPatF pat repl fuel t

def replaceAllPat (pat : List PTok) (repl : String) (cs : Chars) : Chars :=
  replaceAllPatF pat repl cs.length cs

def strReplaceAll (pat : List PTok) (repl : String) (s : String) : String :=
  ⟨replaceAllPat pat repl s.data⟩

/-! ## Data model (src/types.ts) -/

/-- `MappingsConfig` of types.ts: `images` is a string-to-string record whose
insertion order matters for the wildcard scan, `packages` maps a distro to a
record of package-name candidate lists.  Records are embedded as ordered
association lists. -/
structure MappingsConfig where
  images : List (String × String)
  packages : List (String × List (String × List String))
deriving DecidableEq, Repr

inductive ChangeType where
  | fromC
  | runC
  | userC
deriving DecidableEq, Repr

/-- `Change` of types.ts (`type 'from' | 'run' | 'user'`). -/
structure Change where
  line : Nat
  old : String
  new : String
  type : ChangeType
deriving DecidableEq, Repr

structure ConversionResult where
  original : String
  converted : String
  changes : List Change
deriving DecidableEq, Repr

/-! ## FROM-line parsing (DockerfileConverter.convertFrom's regex)

`/^(\s*)FROM\s+([^\s:]+)(?::([^\s]+))?(\s+[Aa][Ss]\s+\S+)?(\s*)$/` embedded
as a deterministic scanner.  Greedy matching with these character classes
never needs backtracking: each class is disjoint from the literal or class
that follows it. -/

structure FromParts where
  indent : String
  image : String
  tag : Option String
  aliasPart : Option String
  trailing : String
deriving DecidableEq, Repr

/-- The optional `(\s+[Aa][Ss]\s+\S+)` group: returns the full matched text
and the remainder. -/
def parseAsClause (cs : Chars) : Option (Chars × Chars) :=
  let w1 := cs.takeWhile isWS
  if w1.isEmpty then none
  else
    match cs.drop w1.length with
    | a :: s :: r =>
      if (a == 'A' || a == 'a') && (s == 'S' || s == 's') then
        let w2 := r.takeWhile isWS
        if w2.isEmpty then none
        else
          let r2 := r.drop w2.length
          let word := r2.takeWhile (fun c => !(isWS c))
          if word.isEmpty then none
          else some (w1 ++ a :: s :: (w2 ++ word), r2.drop word.length)
      else none
    | _ => none

def parseFrom (line : String) : Option FromParts :=
  let cs := line.data
  let ind := cs.takeWhile isWS
  let r1 := cs.drop ind.length
  if ("FROM".data).isPrefixOf r1 then
    let r2 := r1.drop 4
    let w1 := r2.takeWhile isWS
    if w1.isEmpty then none
    else
      let r3 := r2.drop w1.length
      let img := r3.takeWhile (fun c => !(isWS c) && !(c == ':'))
      if img.isEmpty then none
      else
        let r4 := r3.drop img.length
        let tagged : Option (Option Chars × Chars) :=
          match r4 with
          | ':' :: r5 =>
            let tg := r5.takeWhile (fun c => !(isWS c))
            if tg.isEmpty then none else some (some tg, r5.drop tg.length)
          | _ => some (none, r4)
        match tagged with
        | none => none
        | some (tg, r6) =>
          match parseAsClause r6 with
          | some (al, r8) =>
            if r8.all isWS then
              some ⟨⟨ind⟩, ⟨img⟩, tg.map String.mk, some ⟨al⟩, ⟨r8⟩⟩
            else none
          | none =>
            if r6.all isWS then
              some ⟨⟨ind⟩, ⟨img⟩, tg.map String.mk, none, ⟨r6⟩⟩
            else none
  else none

/-! ## Image mapping and tag conversion -/

/-- Record lookup `this.mappings.images[key]`, with JavaScript truthiness:
an entry whose value is the empty string counts as absent. -/
def lookupImage (m : MappingsConfig) (key : String) : Option String :=
  match m.images.find? (fun e => e.1 == key) with
  | some e => if e.2 == "" then none else some e.2
  | none => none

/-- `DockerfileConverter.findImageMapping`: exact `name:tag`, then exact
`name`, then the first registered trailing-wildcard pattern, else the
original name. -/
def findImageMapping (m : MappingsConfig) (lookupKey baseImage : String) : String :=
  match lookupImage m lookupKey with
  | some t => t
  | none =>
    match lookupImage m baseImage with
    | some t => t
    | none =>
      match m.images.find?
          (fun e => strEndsWith e.1 "*" && strStartsWith baseImage (strDropRight e.1 1)) with
      | some e => e.2
      | none => baseImage

/-- The `(\.\d+)*` loop of the version regex (fuelled; every step consumes
at least two characters). -/
def versionLoopF : Nat → Chars → Chars → Chars × Chars
  | 0, acc, cs => (acc, cs)
  | fuel + 1, acc, cs =>
    match cs with
    | '.' :: r =>
      let ds := r.takeWhile Char.isDigit
      if ds.isEmpty then (acc, cs)
      else versionLoopF fuel (acc ++ '.' :: ds) (r.drop ds.length)
    | _ => (acc, cs)

def versionLoop (acc : Chars) (cs : Chars) : Chars × Chars :=
  versionLoopF cs.length acc cs

/-- `tag.match(/^(\d+(?:\.\d+)*)(?:-(.+))?$/)`: the captured numeric version,
or `none` when the regex fails. -/
def parseVersionTag (tag : String) : Option String :=
  let cs := tag.data
  let d1 := cs.takeWhile Char.isDigit
  if d1.isEmpty then none
  else
    match versionLoop d1 (cs.drop d1.length) with
    | (ver, rest) =>
      match rest with
      | [] => some ⟨ver⟩
      | '-' :: r => if r.isEmpty then none else some ⟨ver⟩
      | _ => none

/-- `DockerfileConverter.convertTag`.  `tag?` is `undefined`/the given tag;
the empty string is falsy in the `!tag` test. -/
def convertTag (tag? : Option String) (baseImage mappedImage : String) (hasRun : Bool) :
    String :=
  if strContains mappedImage "chainguard-base" then "latest"
  else
    match tag? with
    | none => if hasRun then "latest-dev" else "latest"
    | some tag =>
      if tag == "" || tag == "latest" then if hasRun then "latest-dev" else "latest"
      else
        match parseVersionTag tag with
        | none => if hasRun then "latest-dev" else "latest"
        | some version =>
          let parts := splitOnChar '.' version.data
          let truncated := joinWith "." ((parts.take 2).map String.mk)
          if hasRun then truncated ++ "-dev" else truncated

/-- `DockerfileConverter.convertFrom`. -/
def convertFrom (m : MappingsConfig) (org : String) (line : String) (hasRun : Bool) :
    String :=
  match parseFrom line with
  | none => line
  | some fp =>
    let lookupKey := match fp.tag with | some t => fp.image ++ ":" ++ t | none => fp.image
    let mappedImage := findImageMapping m lookupKey fp.image
    let mappedImageName := takeUntilColon mappedImage
    let newTag := convertTag fp.tag fp.image mappedImage hasRun
    fp.indent ++ "FROM cgr.dev/" ++ org ++ "/" ++ mappedImageName ++ ":" ++ newTag ++
      fp.aliasPart.getD "" ++ fp.trailing

/-! ## RUN-line conversion (DockerfileConverter.convertRun and helpers) -/

/-- `.*pat` continuation: `.` matches any character except a newline. -/
def dotStarThen (pat : String) : Chars → Bool
  | [] => pat.data.isEmpty
  | c :: t => pat.data.isPrefixOf (c :: t) || (!(c == '\n') && dotStarThen pat t)

/-- `\s*.*pat` continuation (whitespace may include newlines, `.` may not). -/
def wsStarDotStarThen (pat : String) : Chars → Bool
  | [] => pat.data.isEmpty
  | c :: t =>
    pat.data.isPrefixOf (c :: t) ||
      (if isWS c then wsStarDotStarThen pat t else !(c == '\n') && dotStarThen pat t)

def testInstallGo (mgrs : List String) : Chars → Bool
  | [] => false
  | c :: t =>
    (mgrs.any fun mg =>
      match matchLit mg (c :: t) with
      | some (rc :: rt) => isWS rc && wsStarDotStarThen "install" rt
      | _ => false) ||
    testInstallGo mgrs t

/-- The tests `/(?:apt-get|apt)\s+.*install/` and
`/(?:dnf|yum|microdnf)\s+.*install/`. -/
def testInstall (mgrs : List String) (s : String) : Bool := testInstallGo mgrs s.data

/-- `\s+` with maximal munch (the following literals never start with
whitespace). -/
def afterWS1 (cs : Chars) : Option Chars :=
  if (cs.takeWhile isWS).isEmpty then none else some (cs.dropWhile isWS)

/-- The optional `(?:-y\s+)?` group. -/
def optYConsume (cs : Chars) : Chars :=
  if ("-y".data).isPrefixOf cs then
    let r := cs.drop 2
    if (r.takeWhile isWS).isEmpty then cs else r.dropWhile isWS
  else cs

/-- Cut test for the lazy capture `(.+?)(?:\s*(?:&&|\\|$))`. -/
def tailCut (cs : Chars) : Bool :=
  let r := cs.dropWhile isWS
  r.isEmpty || ("&&".data).isPrefixOf r || ("\\".data).isPrefixOf r

def lazyCaptureGo (acc : Chars) : Chars → Chars
  | [] => acc.reverse
  | c :: t => if tailCut (c :: t) then acc.reverse else lazyCaptureGo (c :: acc) t

/-- The lazy group `(.+?)` followed by `\s*(?:&&|\\|$)`: the shortest
nonempty capture after which a cut is possible.  (A newline can never occur
inside one logical line, so `.`'s newline exclusion is vacuous here.) -/
def lazyCapture : Chars → Option Chars
  | [] => none
  | c :: t => some (lazyCaptureGo [c] t)

/-- One attempt of `/(?:apt-get|apt)\s+install\s+(?:-y\s+)?(.+?).../` at a
fixed position for one manager alternative. -/
def tryAptAt (mg : String) (cs : Chars) : Option Chars := do
  let r1 ← matchLit mg cs
  let r2 ← afterWS1 r1
  let r3 ← matchLit "install" r2
  let r4 ← afterWS1 r3
  lazyCapture (optYConsume r4)

/-- One attempt of `/(?:dnf|yum|microdnf)\s+(?:-y\s+)?install\s+(?:-y\s+)?(.+?).../`. -/
def tryDnfAt (mg : String) (cs : Chars) : Option Chars := do
  let r1 ← matchLit mg cs
  let r2 ← afterWS1 r1
  let r3 ← matchLit "install" (optYConsume r2)
  let r4 ← afterWS1 r3
  lazyCapture (optYConsume r4)

/-- Leftmost-match scan over all start positions. -/
def extractScan (tryAt : Chars → Option Chars) : Chars → Option Chars
  | [] => none
  | c :: t =>
    match tryAt (c :: t) with
    | some cap => some cap
    | none => extractScan tryAt t

def packageFilter (ps : List String) : List String :=
  ps.filter fun p => !(p == "") && !(p == "-y") && !(strStartsWith p "-") && !(p == "\\")

/-- `DockerfileConverter.extractAptPackages`. -/
def extractAptPackages (line : String) : List String :=
  match extractScan
      (fun cs => (tryAptAt "apt-get" cs).orElse (fun _ => tryAptAt "apt" cs)) line.data with
  | none => []
  | some cap => packageFilter ((words cap).map String.mk)

/-- `DockerfileConverter.extractDnfPackages`. -/
def extractDnfPackages (line : String) : List String :=
  match extractScan
      (fun cs =>
        ((tryDnfAt "dnf" cs).orElse fun _ =>
          (tryDnfAt "yum" cs).orElse fun _ => tryDnfAt "microdnf" cs)) line.data with
  | none => []
  | some cap => packageFilter ((words cap).map String.mk)

/-- `DockerfileConverter.mapPackages`: first candidate of the distro's entry,
else the original name. -/
def mapPackages (m : MappingsConfig) (pkgs : List String) (distro : String) : List String :=
  pkgs.map fun pkg =>
    match m.packages.find? (fun e => e.1 == distro) with
    | none => pkg
    | some e =>
      match e.2.find? (fun q => q.1 == pkg) with
      | none => pkg
      | some q => match q.2 with | [] => pkg | c :: _ => c

/-- `DockerfileConverter.convertUserManagement`: the three sequential global
replacements. -/
def convertUserManagement (line : String) : String :=
  let c1 := strReplaceAll [.lit "useradd", .ws1, .lit "-r", .ws1] "adduser -S " line
  let c2 := strReplaceAll [.lit "useradd", .ws1] "adduser -D " c1
  strReplaceAll [.lit "groupadd", .ws1] "addgroup " c2

/-- The `includes` guard in front of the update/clean stripping. -/
def maintenanceGuard (s : String) : Bool :=
  strContains s "apt-get update" || strContains s "apt update" ||
  strContains s "dnf -y update" || strContains s "yum update" ||
  strContains s "dnf clean" || strContains s "yum clean" ||
  strContains s "rm -rf /var/lib/apt/lists"

/-- `(\s*&&\s*)?$`. -/
def maintAmpEnd (cs : Chars) : Bool :=
  (match matchLit "&&" (cs.dropWhile isWS) with
   | some r2 => (r2.dropWhile isWS).isEmpty
   | none => false) ||
  cs.isEmpty

/-- `(\s+all)?(\s*&&\s*)?$`. -/
def maintTail (cs : Chars) : Bool :=
  (match afterWS1 cs with
   | some r =>
     match matchLit "all" r with
     | some r2 => maintAmpEnd r2
     | none => false
   | none => false) ||
  maintAmpEnd cs

/-- `(update|clean)` followed by `maintTail`. -/
def maintVerbTail (cs : Chars) : Bool :=
  (match matchLit "update" cs with | some r => maintTail r | none => false) ||
  (match matchLit "clean" cs with | some r => maintTail r | none => false)

/-- `(-y\s+)?` then the verb part. -/
def maintAfterMgr (cs : Chars) : Bool :=
  maintVerbTail cs ||
  (match matchLit "-y" cs with
   | some r =>
     match afterWS1 r with
     | some r2 => maintVerbTail r2
     | none => false
   | none => false)

/-- `^RUN\s+(apt-get|apt|dnf|yum)\s+(-y\s+)?(update|clean)(\s+all)?(\s*&&\s*)?$`,
applied to the trimmed line. -/
def maintFull (s : String) : Bool :=
  match matchLit "RUN" s.data with
  | none => false
  | some r1 =>
    match afterWS1 r1 with
    | none => false
    | some r2 =>
      ["apt-get", "apt", "dnf", "yum"].any fun mg =>
        match matchLit mg r2 with
        | none => false
        | some r3 =>
          match afterWS1 r3 with
          | none => false
          | some r4 => maintAfterMgr r4

/-- The seven sequential global replacements stripping update/clean parts. -/
def cleanMaintenance (s : String) : String :=
  let s1 := strReplaceAll [.lit "apt-get", .ws1, .lit "update", .ws0, .lit "&&", .ws0] "" s
  let s2 := strReplaceAll [.lit "apt", .ws1, .lit "update", .ws0, .lit "&&", .ws0] "" s1
  let s3 := strReplaceAll
    [.lit "dnf", .ws1, .lit "-y", .ws1, .lit "update", .ws0, .lit "&&", .ws0] "" s2
  let s4 := strReplaceAll [.lit "yum", .ws1, .lit "update", .ws0, .lit "&&", .ws0] "" s3
  let s5 := strReplaceAll
    [.ws0, .lit "&&", .ws0, .lit "dnf", .ws1, .lit "clean", .ws1, .lit "all"] "" s4
  let s6 := strReplaceAll
    [.ws0, .lit "&&", .ws0, .lit "yum", .ws1, .lit "clean", .ws1, .lit "all"] "" s5
  strReplaceAll
    [.ws0, .lit "&&", .ws0, .lit "rm", .ws1, .lit "-rf", .ws1,
     .lit "/var/lib/apt/lists", .optLit "/", .optLit "*"] "" s6

structure RunResult where
  converted : String
  needsRoot : Bool
deriving DecidableEq, Repr

/-- `DockerfileConverter.convertRun`, fuelled for the recursive call on the
stripped command.  Each recursion deletes a nonempty maintenance segment, so
a fuel of one more than the line length is never exhausted; the fuel-zero
default mirrors the untouched-line fallthrough. -/
def convertRunGo (m : MappingsConfig) : Nat → String → RunResult
  | 0, line => ⟨line, false⟩
  | fuel + 1, line =>
    let trimmed := strTrim line
    let conv0 :=
      if strContains trimmed "useradd" || strContains trimmed "groupadd" then
        convertUserManagement line
      else line
    let aptR : Option RunResult :=
      if testInstall ["apt-get", "apt"] conv0 then
        let packages := extractAptPackages conv0
        if packages.isEmpty then none
        else
          some ⟨leadingWS conv0 ++ "RUN apk add --no-cache " ++
                  joinWith " " (mapPackages m packages "debian"), true⟩
      else none
    match aptR with
    | some r => r
    | none =>
      let dnfR : Option RunResult :=
        if testInstall ["dnf", "yum", "microdnf"] conv0 then
          let packages := extractDnfPackages conv0
          if packages.isEmpty then none
          else
            some ⟨leadingWS conv0 ++ "RUN apk add --no-cache " ++
                    joinWith " " (mapPackages m packages "fedora"), true⟩
        else none
      match dnfR with
      | some r => r
      | none =>
        if maintenanceGuard conv0 then
          if maintFull (strTrim conv0) then ⟨"", false⟩
          else
            let cleaned := cleanMaintenance conv0
            if cleaned == conv0 then ⟨conv0, false⟩
            else convertRunGo m fuel cleaned
        else ⟨conv0, false⟩

def convertRun (m : MappingsConfig) (line : String) : RunResult :=
  convertRunGo m (strLength line + 1) line

/-! ## Multi-line commands and the conversion loop -/

/-- `DockerfileConverter.readMultilineCommand`: join backslash-continued
lines, counting the physical lines consumed. -/
def readMultilineCommand (acc : String) : List String → String × Nat
  | [] => (acc, 1)
  | next :: rs =>
    if strEndsWith (strTrimEnd acc) "\\" then
      ((readMultilineCommand (strDropRight (strTrimEnd acc) 1 ++ " " ++ strTrim next) rs).1,
        (readMultilineCommand (strDropRight (strTrimEnd acc) 1 ++ " " ++ strTrim next) rs).2
          + 1)
    else (acc, 1)

/-- `/^(\s*RUN\s+)(.+)$/s`: greedy `\s+` backtracks one character when the
command ends in whitespace, because `(.+)` needs at least one character. -/
def parseRunPrefix (s : String) : Option (String × String) :=
  let cs := s.data
  let ind := cs.takeWhile isWS
  match matchLit "RUN" (cs.drop ind.length) with
  | none => none
  | some r =>
    let w := r.takeWhile isWS
    if w.isEmpty then none
    else
      let rest := r.drop w.length
      if rest.isEmpty then
        if 2 ≤ w.length then
          some (⟨ind ++ "RUN".data ++ w.take (w.length - 1)⟩, ⟨w.drop (w.length - 1)⟩)
        else none
      else some (⟨ind ++ "RUN".data ++ w⟩, ⟨rest⟩)

/-- `DockerfileConverter.formatMultilineCommand`. -/
def formatMultilineCommand (command : String) (originalLineCount : Nat) : List String :=
  if originalLineCount == 1 then [command]
  else
    match parseRunPrefix command with
    | none => [command]
    | some (pre, rest) =>
      if strLength rest < 80 && !(strContains rest "&&") then [command]
      else
        let ind := leadingWS pre
        let parts := ((splitOnList "&&".data rest.data).map fun p =>
          strTrim ⟨p⟩).filter fun p => !(p == "")
        match parts with
        | [] => [command]
        | [_] => [command]
        | p :: ps =>
          (pre ++ p ++ " \\") ::
            ((ps.take (ps.length - 1)).map fun q => ind ++ "    && " ++ q ++ " \\") ++
            [ind ++ "    && " ++ ps.getLastD ""]

def isFromLine (l : String) : Bool := strStartsWith (strToUpper (strTrim l)) "FROM"

def isRunLine (l : String) : Bool := strStartsWith (strToUpper (strTrim l)) "RUN"

/-- `DockerfileConverter.checkStageHasRun`: look ahead from the FROM line to
the next stage boundary for a RUN command. -/
def checkStageHasRun : List String → Bool
  | [] => false
  | l :: ls =>
    if isFromLine l then false
    else if isRunLine l then true
    else checkStageHasRun ls

/-- One FROM line's contribution: the converted line plus, when the text
changed, a from-typed Change in front of the tail's changes. -/
def fromLineOut (i : Nat) (line cf : String) (pr : List String × List Change) :
    List String × List Change :=
  (cf :: pr.1, if line == cf then pr.2 else ⟨i, line, cf, .fromC⟩ :: pr.2)

/-- One RUN command's contribution: the optional USER-root injection
(exactly when the conversion needs root and the stage has not yet been
escalated), the formatted converted command, and the run-typed Change when
the trimmed text changed. -/
def runLineOut (i : Nat) (needsUserRoot : Bool) (fc : String × Nat) (r : RunResult)
    (pr : List String × List Change) : List String × List Change :=
  if r.needsRoot && !needsUserRoot then
    ("USER root" :: (formatMultilineCommand r.converted fc.2 ++ pr.1),
      ⟨i, "", "USER root", .userC⟩ ::
        (if strTrim fc.1 == strTrim r.converted then pr.2
         else ⟨i, fc.1, r.converted, .runC⟩ :: pr.2))
  else
    (formatMultilineCommand r.converted fc.2 ++ pr.1,
      if strTrim fc.1 == strTrim r.converted then pr.2
      else ⟨i, fc.1, r.converted, .runC⟩ :: pr.2)

/-- One user-management line's contribution. -/
def userLineOut (i : Nat) (line cu : String) (pr : List String × List Change) :
    List String × List Change :=
  (cu :: pr.1, if line == cu then pr.2 else ⟨i, line, cu, .userC⟩ :: pr.2)

def isUserMgmtLine (line : String) : Bool :=
  strContains (strTrim line) "useradd" || strContains (strTrim line) "groupadd"

/-- The body of `DockerfileConverter.convert`: walk the lines with the
current physical line index and the per-stage needsUserRoot flag.  The fuel
is the number of remaining lines; every step consumes at least one line, so
the fuel-zero default only ever sees the empty list, where it agrees with
the match. -/
def convertLoopF (m : MappingsConfig) (org : String) :
    Nat → List String → Nat → Bool → List String × List Change
  | 0, _, _, _ => ([], [])
  | _ + 1, [], _, _ => ([], [])
  | fuel + 1, line :: rest, i, needsUserRoot =>
    if isFromLine line then
      fromLineOut i line (convertFrom m org line (checkStageHasRun rest))
        (convertLoopF m org fuel rest (i + 1) false)
    else if isRunLine line then
      runLineOut i needsUserRoot (readMultilineCommand line rest)
        (convertRun m (readMultilineCommand line rest).1)
        (convertLoopF m org fuel
          (rest.drop ((readMultilineCommand line rest).2 - 1))
          (i + (readMultilineCommand line rest).2)
          (needsUserRoot || (convertRun m (readMultilineCommand line rest).1).needsRoot))
    else if isUserMgmtLine line then
      userLineOut i line (convertUserManagement line)
        (convertLoopF m org fuel rest (i + 1) needsUserRoot)
    else
      ((line :: (convertLoopF m org fuel rest (i + 1) needsUserRoot).1),
        (convertLoopF m org fuel rest (i + 1) needsUserRoot).2)

def convertLoop (m : MappingsConfig) (org : String) (lines : List String) (i : Nat)
    (needsUserRoot : Bool) : List String × List Change :=
  convertLoopF m org lines.length lines i needsUserRoot

/-- `DockerfileConverter.convert`. -/
def convert (m : MappingsConfig) (org : String) (content : String) : ConversionResult :=
  let lines := (splitOnChar '\n' content.data).map String.mk
  match convertLoop m org lines 0 false with
  | (convertedLines, changes) => ⟨content, joinWith "\n" convertedLines, changes⟩

/-- Modelled from the spec: the bundled mapping data file
(builtin-mappings.yaml, loaded at runtime by the mappings loader) is not part
of the source tree.  A representative table following the spec's mapping
examples: the Alpine/Debian-style bases map to the generic minimal base,
language images map through trailing-wildcard patterns, and the Debian and
RedHat package families carry a few name remappings. -/
def builtinMappings : MappingsConfig :=
  { images := [("alpine", "chainguard-base"), ("ubuntu", "chainguard-base"),
               ("debian", "chainguard-base"), ("node*", "node"),
               ("python*", "python"), ("golang*", "go")],
    packages := [("debian", [("build-essential", ["build-base"])]),
                 ("fedora", [("python3-pip", ["py3-pip"])])] }

/-! ## Grype scan results (src/scanner/grype-scanner.ts)

The external scanner subprocess is opaque: a scan outcome is the list of
the `matches` array, each carrying an optional `vulnerability.severity` string.  The
four `CVEScanResult` shapes that `scanImage` stores in the cache are embedded
as four constructors. -/

structure CVEScanResult where
  image : String
  cveCount : Int
  critical : Int
  high : Int
  medium : Int
  low : Int
  negligible : Int
  scanning : Bool
  error : Option String
deriving DecidableEq, Repr

/-- `(match.vulnerability?.severity || '').toLowerCase()`. -/
def sevOf (severity : Option String) : String := strToLower (severity.getD "")

def severityTiers : List String := ["critical", "high", "medium", "low", "negligible"]

def countSev (ms : List (Option String)) (tier : String) : Int :=
  ((ms.filter fun mt => sevOf mt == tier).length : Int)

/-- The in-progress marker `scanImage` caches before invoking grype. -/
def scanImagePending (image : String) : CVEScanResult :=
  ⟨image, 0, 0, 0, 0, 0, 0, true, none⟩

/-- The result cached when grype is not installed. -/
def scanImageNoGrype (image : String) : CVEScanResult :=
  ⟨image, -1, 0, 0, 0, 0, 0, false, some "grype not installed"⟩

/-- The successful-scan result: `cveCount` is the number of matches, each
tier counts the matches whose lowercased severity equals it. -/
def scanImageSuccess (image : String) (ms : List (Option String)) : CVEScanResult :=
  ⟨image, (ms.length : Int),
    countSev ms "critical", countSev ms "high", countSev ms "medium",
    countSev ms "low", countSev ms "negligible", false, none⟩

/-- The catch-branch error classification: substring matching on the error
message distinguishes authentication failures. -/
def classifyScanError (msg : String) : String :=
  if strContains msg "Authenticating" || strContains msg "authentication" ||
      strContains msg "unauthorized" || strContains msg "denied" then
    "Authentication required. Run: chainctl auth login"
  else msg

/-- The result cached when the grype invocation throws. -/
def scanImageFailure (image msg : String) : CVEScanResult :=
  ⟨image, -1, 0, 0, 0, 0, 0, false, some (classifyScanError msg)⟩

def severitySum (r : CVEScanResult) : Int :=
  r.critical + r.high + r.medium + r.low + r.negligible

/-- A match whose severity lands in one of the five known tiers
(`severity in counts`). -/
def recognizedSeverity (mt : Option String) : Bool := severityTiers.contains (sevOf mt)

def countRecognized (ms : List (Option String)) : Int :=
  ((ms.filter recognizedSeverity).length : Int)

/-! ## Wolfi package search (package-search module in the converter sources)

`fetchWolfiPackages` catches every failure internally and resolves with an
empty map, so it never rejects; its network/decompress/extract pipeline is
abstracted to an `Option String` holding the APKINDEX text (`none` = the
fetch failed and the catch branch ran).  Consequently the `catch` in
`packageExists` (`return true; // Assume exists on error`) is unreachable
and has no counterpart in the total embedding. -/

structure WolfiPackage where
  name : String
  version : Option String
  description : Option String
deriving DecidableEq, Repr

def apkindexInsert (pkgs : List (String × WolfiPackage)) (p : WolfiPackage) :
    List (String × WolfiPackage) :=
  if pkgs.any (fun e => e.1 == p.name) then
    pkgs.map fun e => if e.1 == p.name then (e.1, p) else e
  else pkgs ++ [(p.name, p)]

def parseAPKINDEXGo (pkgs : List (String × WolfiPackage))
    (cur : Option String × Option String × Option String) :
    List Chars → List (String × WolfiPackage)
  | [] =>
    match cur.1 with
    | some n => apkindexInsert pkgs ⟨n, cur.2.1, cur.2.2⟩
    | none => pkgs
  | l :: ls =>
    if ("P:".data).isPrefixOf l then
      parseAPKINDEXGo pkgs (some (strTrim ⟨l.drop 2⟩), cur.2.1, cur.2.2) ls
    else if ("V:".data).isPrefixOf l then
      parseAPKINDEXGo pkgs (cur.1, some (strTrim ⟨l.drop 2⟩), cur.2.2) ls
    else if ("T:".data).isPrefixOf l then
      parseAPKINDEXGo pkgs (cur.1, cur.2.1, some (strTrim ⟨l.drop 2⟩)) ls
    else if l.isEmpty then
      match cur.1 with
      | some n => parseAPKINDEXGo (apkindexInsert pkgs ⟨n, cur.2.1, cur.2.2⟩) (none, none, none) ls
      | none => parseAPKINDEXGo pkgs cur ls
    else parseAPKINDEXGo pkgs cur ls

/-- `parseAPKINDEX`: blank-line-delimited records with P:/V:/T: field tags. -/
def parseAPKINDEX (content : String) : List (String × WolfiPackage) :=
  parseAPKINDEXGo [] (none, none, none) (splitOnChar '\n' content.data)

/-- `fetchWolfiPackages`: the catch branch returns an empty map on any
failure. -/
def fetchWolfiPackages (net : Option String) : List (String × WolfiPackage) :=
  match net with
  | none => []
  | some content => parseAPKINDEX content

/-- `packageExists`: a key lookup in the fetched map. -/
def packageExists (net : Option String) (packageName : String) : Bool :=
  (fetchWolfiPackages net).any fun e => e.1 == packageName

/-! ## VEX feed client (src/services/vex-feed-client.ts)

The fetched OpenVEX document is embedded structurally: optional lists stand
for the `!x || !Array.isArray(x)` guards, and the PURL extraction regexes
are embedded as scanners.  `fetchVexFeed` caches `parseVexData` of the
fetched JSON (or an empty map on failure), so `checkRemediationAvailability`
is stated against that map. -/

structure VexRemediation where
  packageName : String
  ecosystem : String
  version : String
  cvesFixed : List String
  advisoryUrl : Option String
deriving DecidableEq, Repr

structure VexProduct where
  identifiers : List String
deriving DecidableEq, Repr

structure VexStatement where
  products : List VexProduct
  vulnerabilityId : Option String
  actionStatementUri : Option String
deriving DecidableEq, Repr

structure VexDocument where
  statements : Option (List VexStatement)
deriving DecidableEq, Repr

structure VexJson where
  documents : Option (List VexDocument)
deriving DecidableEq, Repr

/-- One attempt of `/pkg:[^/]+\/([^@]+)/` at a fixed position. -/
def tryPurlNameAt (cs : Chars) : Option Chars := do
  let r1 ← matchLit "pkg:" cs
  let eco := r1.takeWhile fun c => !(c == '/')
  if eco.isEmpty then none
  else
    let r2 ← matchLit "/" (r1.drop eco.length)
    let nm := r2.takeWhile fun c => !(c == '@')
    if nm.isEmpty then none else some nm

/-- One attempt of `/pkg:([^/]+)\//` at a fixed position. -/
def tryPurlEcoAt (cs : Chars) : Option Chars := do
  let r1 ← matchLit "pkg:" cs
  let eco := r1.takeWhile fun c => !(c == '/')
  if eco.isEmpty then none
  else
    let _ ← matchLit "/" (r1.drop eco.length)
    some eco

/-- One attempt of `/@(.+)$/` at a fixed position (`.` excludes newlines,
`$` is the very end of the string). -/
def tryVersionAt (cs : Chars) : Option Chars :=
  match cs with
  | '@' :: t => if !t.isEmpty && t.all (fun c => !(c == '\n')) then some t else none
  | _ => none

/-- `extractPackageName`: first regex match, else the whole PURL. -/
def extractPackageName (purl : String) : String :=
  match extractScan tryPurlNameAt purl.data with
  | some nm => ⟨nm⟩
  | none => purl

/-- `extractEcosystem`: first regex match, else the literal unknown. -/
def extractEcosystem (purl : String) : String :=
  match extractScan tryPurlEcoAt purl.data with
  | some eco => ⟨eco⟩
  | none => "unknown"

/-- `extractVersion`: everything after the first matching at-sign, else
empty. -/
def extractVersion (purl : String) : String :=
  match extractScan tryVersionAt purl.data with
  | some v => ⟨v⟩
  | none => ""

abbrev VexMap := List (String × List VexRemediation)

/-- `remediations.get(key).push(...)` with `set(key, [])` on first use. -/
def vexMapPush (mp : VexMap) (key : String) (r : VexRemediation) : VexMap :=
  if mp.any (fun e => e.1 == key) then
    mp.map fun e => if e.1 == key then (e.1, e.2 ++ [r]) else e
  else mp ++ [(key, [r])]

def parseVexStatement (mp : VexMap) (stmt : VexStatement) : VexMap :=
  match stmt.products.head?.bind (fun p => p.identifiers.head?) with
  | none => mp
  | some packageRef =>
    if packageRef == "" then mp
    else
      let r : VexRemediation :=
        ⟨extractPackageName packageRef, extractEcosystem packageRef,
          extractVersion packageRef,
          (match stmt.vulnerabilityId with
           | some v => if v == "" then [] else [v]
           | none => []),
          stmt.actionStatementUri⟩
      vexMapPush mp (r.ecosystem ++ ":" ++ r.packageName) r

/-- `parseVexData`. -/
def parseVexData (vexJson : VexJson) : VexMap :=
  match vexJson.documents with
  | none => []
  | some docs =>
    docs.foldl
      (fun mp doc =>
        match doc.statements with
        | none => mp
        | some stmts => stmts.foldl parseVexStatement mp)
      []

/-- The caller-label normalization table of `checkRemediationAvailability`. -/
def normalizeEcosystem (ecosystem : String) : String :=
  if ecosystem == "python" then "pypi"
  else if ecosystem == "javascript" then "npm"
  else if ecosystem == "java" then "maven"
  else ecosystem

/-- `checkRemediationAvailability`, stated against the cached feed map. -/
def checkRemediationAvailability (feed : VexMap) (packageName ecosystem : String) :
    List VexRemediation :=
  let key := normalizeEcosystem ecosystem ++ ":" ++ packageName
  match feed.find? (fun e => e.1 == key) with
  | some e => e.2
  | none => []

/-- Aggregated fixed-vulnerability count over a remediation list. -/
def totalCvesFixed (rs : List VexRemediation) : Nat :=
  rs.foldl (fun acc r => acc + r.cvesFixed.length) 0

/-! ## Dependency file parsers (src/parsers/dependency-parser.ts)

Each concrete parser wraps its whole body in try/catch and returns an empty
list on any failure; the file read is therefore an `Option` (`none` = the
read rejected).  For package.json the combined read-and-JSON.parse outcome
is the pre-parsed document, `none` covering both a read failure and
malformed JSON. -/

structure PackageReference where
  name : String
  version : Option String
  extras : Option (List String)
deriving DecidableEq, Repr

def reqNameChar (c : Char) : Bool := c.isAlpha || c.isDigit || c == '_' || c == '-'

/-- One requirements.txt line against
`/^([a-zA-Z0-9_-]+)(\[([^\]]+)\])?(==|>=|<=|>|<|~=)?(.+)?/`. -/
def parseRequirementsLine (cs : Chars) : Option PackageReference :=
  let nm := cs.takeWhile reqNameChar
  if nm.isEmpty then none
  else
    let r1 := cs.drop nm.length
    let bracketed : Option (Chars × Chars) :=
      match r1 with
      | '[' :: t =>
        let inner := t.takeWhile fun c => !(c == ']')
        if inner.isEmpty then none
        else
          match t.drop inner.length with
          | ']' :: r2 => some (inner, r2)
          | _ => none
      | _ => none
    let extras := bracketed.map fun b => (splitOnChar ',' b.1).map fun e => strTrim ⟨e⟩
    let r2 := match bracketed with | some b => b.2 | none => r1
    let r3 :=
      match ["==", ">=", "<=", ">", "<", "~="].find? (fun op => op.data.isPrefixOf r2) with
      | some op => r2.drop op.data.length
      | none => r2
    let ver := strTrim ⟨r3⟩
    some ⟨⟨nm⟩, if ver == "" then none else some ver, extras⟩

/-- `parseRequirementsTxt`. -/
def parseRequirementsTxt (content : Option String) : List PackageReference :=
  match content with
  | none => []
  | some c =>
    ((splitOnChar '\n' c.data).map fun l => strTrim ⟨l⟩).foldr
      (fun trimmed acc =>
        if trimmed == "" || strStartsWith trimmed "#" || strStartsWith trimmed "-" then acc
        else
          match parseRequirementsLine trimmed.data with
          | some p => p :: acc
          | none => acc)
      []

structure PackageJsonDoc where
  dependencies : List (String × String)
  devDependencies : List (String × String)
deriving DecidableEq, Repr

/-- `parsePackageJson`: runtime dependencies then dev dependencies. -/
def parsePackageJson (doc : Option PackageJsonDoc) : List PackageReference :=
  match doc with
  | none => []
  | some d =>
    (d.dependencies.map fun e => (⟨e.1, some e.2, none⟩ : PackageReference)) ++
      (d.devDependencies.map fun e => (⟨e.1, some e.2, none⟩ : PackageReference))

/-- One attempt of `/<artifactId>([^<]+)<\/artifactId>/` at a position. -/
def tryPomAt (cs : Chars) : Option Chars := do
  let r1 ← matchLit "<artifactId>" cs
  let nm := r1.takeWhile fun c => !(c == '<')
  if nm.isEmpty then none
  else
    let _ ← matchLit "</artifactId>" (r1.drop nm.length)
    some nm

/-- All matches; matches of this token shape cannot overlap, so advancing
one character after a hit coincides with resuming after the match. -/
def pomScan : Chars → List String
  | [] => []
  | c :: t =>
    match tryPomAt (c :: t) with
    | some nm => String.mk nm :: pomScan t
    | none => pomScan t

/-- `parsePomXml`. -/
def parsePomXml (content : Option String) : List PackageReference :=
  match content with
  | none => []
  | some c => (pomScan c.data).map fun nm => ⟨nm, none, none⟩

def squote : Char := Char.ofNat 39

def gradleNameChar (c : Char) : Bool := !(c == ':') && !(c == squote) && !(c == '"')

/-- One attempt of `/implementation\s+['"]([^:'"]+):([^:'"]+)/` at a
position. -/
def tryGradleAt (cs : Chars) : Option Chars := do
  let r1 ← matchLit "implementation" cs
  let r2 ← afterWS1 r1
  match r2 with
  | q :: r3 =>
    if q == squote || q == '"' then
      let g1 := r3.takeWhile gradleNameChar
      if g1.isEmpty then none
      else
        match r3.drop g1.length with
        | ':' :: r4 =>
          let g2 := r4.takeWhile gradleNameChar
          if g2.isEmpty then none else some (g1 ++ ':' :: g2)
        | _ => none
    else none
  | [] => none

def gradleScan : Chars → List String
  | [] => []
  | c :: t =>
    match tryGradleAt (c :: t) with
    | some nm => String.mk nm :: gradleScan t
    | none => gradleScan t

/-- `parseBuildGradle`. -/
def parseBuildGradle (content : Option String) : List PackageReference :=
  match content with
  | none => []
  | some c => (gradleScan c.data).map fun nm => ⟨nm, none, none⟩

/-- The file-read outcomes a dispatch can see. -/
structure DependencyFS where
  readText : Option String
  readPackageJson : Option PackageJsonDoc

/-- `path.basename`. -/
def pathBasename (p : String) : String := ⟨(splitOnChar '/' p.data).getLastD []⟩

/-- `parseDependencyFile`: the (ecosystem, file-name) dispatch table; every
combination outside it falls through to the empty list. -/
def parseDependencyFile (fs : DependencyFS) (filePath ecosystem : String) :
    List PackageReference :=
  let fileName := pathBasename filePath
  if ecosystem == "python" then
    if strEndsWith fileName ".txt" then parseRequirementsTxt fs.readText else []
  else if ecosystem == "javascript" then
    if fileName == "package.json" then parsePackageJson fs.readPackageJson else []
  else if ecosystem == "java" then
    if fileName == "pom.xml" then parsePomXml fs.readText
    else if strStartsWith fileName "build.gradle" then parseBuildGradle fs.readText
    else []
  else []

/-! ## Stage-level view of the privilege-escalation injection

Specification-side definitions for the USER-root claim: a stage body is the
line list between one FROM instruction and the next.  `stageSplit` walks a
stage body exactly as the conversion loop does (coalescing continuation
lines, skipping converted commands) and isolates the first RUN command whose
conversion rewrites a package install (`needsRoot`): it returns the lines
before that command, the coalesced command, its physical line count, and the
lines after it. -/

/-- An injected change: only the synthetic USER-root change carries an empty
original text. -/
def injectedUserRoot (c : Change) : Bool := c.old == ""

def injectedCount (chs : List Change) : Nat := (chs.filter injectedUserRoot).length

def stageNeedsRootF (m : MappingsConfig) : Nat → List String → Bool
  | 0, _ => false
  | _ + 1, [] => false
  | fuel + 1, line :: rest =>
    if isRunLine line then
      if (convertRun m (readMultilineCommand line rest).1).needsRoot then true
      else stageNeedsRootF m fuel (rest.drop ((readMultilineCommand line rest).2 - 1))
    else stageNeedsRootF m fuel rest

def stageNeedsRoot (m : MappingsConfig) (lines : List String) : Bool :=
  stageNeedsRootF m lines.length lines

def stageSplitF (m : MappingsConfig) : Nat → List String →
    Option (List String × String × Nat × List String)
  | 0, _ => none
  | _ + 1, [] => none
  | fuel + 1, line :: rest =>
    if isRunLine line then
      if (convertRun m (readMultilineCommand line rest).1).needsRoot then
        some ([], (readMultilineCommand line rest).1, (readMultilineCommand line rest).2,
          rest.drop ((readMultilineCommand line rest).2 - 1))
      else
        (stageSplitF m fuel (rest.drop ((readMultilineCommand line rest).2 - 1))).map
          fun q => (line :: (rest.take ((readMultilineCommand line rest).2 - 1) ++ q.1),
            q.2.1, q.2.2.1, q.2.2.2)
    else
      (stageSplitF m fuel rest).map fun q => (line :: q.1, q.2.1, q.2.2.1, q.2.2.2)

def stageSplit (m : MappingsConfig) (lines : List String) :
    Option (List String × String × Nat × List String) :=
  stageSplitF m lines.length lines

/-- A two-statement OpenVEX sample for pkg:pypi/requests, used by the
remediation-lookup scenario. -/
def vexSampleFeed : VexJson :=
  ⟨some [⟨some
    [⟨[⟨["pkg:pypi/requests@2.31.0"]⟩], some "CVE-2023-32681", none⟩,
     ⟨[⟨["pkg:pypi/requests@2.31.0"]⟩], some "CVE-2024-35195", none⟩]⟩]⟩

/-! ## Helper lemmas -/

theorem str_append_nil (s : String) : s ++ "" = s := by
  cases s with
  | mk d =>
    show String.mk (d ++ []) = String.mk d
    rw [List.append_nil]

theorem mem_takeWhile {α} (p : α → Bool) :
    ∀ (l : List α) (a : α), a ∈ l.takeWhile p → p a = true := by
  intro l
  induction l with
  | nil => intro a ha; simp [List.takeWhile] at ha
  | cons b t ih =>
    intro a ha
    by_cases hb : p b = true
    · rw [List.takeWhile_cons, if_pos hb] at ha
      rcases List.mem_cons.mp ha with h | h
      · rw [h]; exact hb
      · exact ih a h
    · rw [List.takeWhile_cons, if_neg hb] at ha
      simp at ha

theorem takeWhile_of_all {α} (p : α → Bool) :
    ∀ (l : List α), (∀ a ∈ l, p a = true) → l.takeWhile p = l := by
  intro l
  induction l with
  | nil => intro _; rfl
  | cons b t ih =>
    intro h
    rw [List.takeWhile_cons, if_pos (h b (List.mem_cons_self b t))]
    rw [ih fun a ha => h a (List.mem_cons_of_mem b ha)]

/-- Every FROM parse leaves an image free of colons and whitespace. -/
theorem parseFrom_image_noColon (line : String) (fp : FromParts)
    (h : parseFrom line = some fp) :
    fp.image.data.all (fun c => !(c == ':')) = true := by
  simp only [parseFrom] at h
  split at h
  · split at h
    · exact absurd h (by simp)
    · split at h
      · exact absurd h (by simp)
      · split at h
        · exact absurd h (by simp)
        · rename_i tg r6 heq
          split at h
          · split at h
            · rcases Option.some.inj h with rfl
              refine List.all_eq_true.mpr fun c hc => ?_
              have := mem_takeWhile _ _ c hc
              exact (Bool.and_elim_right this)
            · exact absurd h (by simp)
          · split at h
            · rcases Option.some.inj h with rfl
              refine List.all_eq_true.mpr fun c hc => ?_
              have := mem_takeWhile _ _ c hc
              exact (Bool.and_elim_right this)
            · exact absurd h (by simp)
  · exact absurd h (by simp)

theorem takeUntilColon_of_noColon (s : String)
    (h : s.data.all (fun c => !(c == ':')) = true) : takeUntilColon s = s := by
  cases s with
  | mk d =>
    show String.mk (d.takeWhile _) = String.mk d
    rw [takeWhile_of_all _ d (fun a ha => List.all_eq_true.mp h a ha)]

/-- The five tier counts of one match sum to its recognition indicator. -/
theorem countSev_cons (ms : List (Option String)) (mt : Option String) (tier : String) :
    countSev (mt :: ms) tier =
      (if sevOf mt == tier then 1 else 0) + countSev ms tier := by
  simp only [countSev, List.filter_cons]
  split <;> simp [Int.add_comm]

theorem countRecognized_cons (ms : List (Option String)) (mt : Option String) :
    countRecognized (mt :: ms) =
      (if recognizedSeverity mt then 1 else 0) + countRecognized ms := by
  simp only [countRecognized, List.filter_cons]
  split <;> simp [Int.add_comm]

theorem sum_countSev (ms : List (Option String)) :
    countSev ms "critical" + countSev ms "high" + countSev ms "medium" +
      countSev ms "low" + countSev ms "negligible" = countRecognized ms := by
  induction ms with
  | nil => rfl
  | cons mt t ih =>
    simp only [countSev_cons, countRecognized_cons]
    have key : (if sevOf mt == "critical" then (1 : Int) else 0) +
        (if sevOf mt == "high" then (1 : Int) else 0) +
        (if sevOf mt == "medium" then (1 : Int) else 0) +
        (if sevOf mt == "low" then (1 : Int) else 0) +
        (if sevOf mt == "negligible" then (1 : Int) else 0) =
        if recognizedSeverity mt then 1 else 0 := by
      by_cases h1 : sevOf mt = "critical"
      · rw [show recognizedSeverity mt = true by rw [recognizedSeverity, h1]; decide]
        simp [h1]
      by_cases h2 : sevOf mt = "high"
      · rw [show recognizedSeverity mt = true by rw [recognizedSeverity, h2]; decide]
        simp [h2, h1]
      by_cases h3 : sevOf mt = "medium"
      · rw [show recognizedSeverity mt = true by rw [recognizedSeverity, h3]; decide]
        simp [h3, h1, h2]
      by_cases h4 : sevOf mt = "low"
      · rw [show recognizedSeverity mt = true by rw [recognizedSeverity, h4]; decide]
        simp [h4, h1, h2, h3]
      by_cases h5 : sevOf mt = "negligible"
      · rw [show recognizedSeverity mt = true by rw [recognizedSeverity, h5]; decide]
        simp [h5, h1, h2, h3, h4]
      · have b1 : (sevOf mt == "critical") = false := beq_eq_false_iff_ne.mpr h1
        have b2 : (sevOf mt == "high") = false := beq_eq_false_iff_ne.mpr h2
        have b3 : (sevOf mt == "medium") = false := beq_eq_false_iff_ne.mpr h3
        have b4 : (sevOf mt == "low") = false := beq_eq_false_iff_ne.mpr h4
        have b5 : (sevOf mt == "negligible") = false := beq_eq_false_iff_ne.mpr h5
        rw [show recognizedSeverity mt = false by
          simp only [recognizedSeverity, severityTiers, List.contains, List.elem,
            b1, b2, b3, b4, b5]]
        simp [b1, b2, b3, b4, b5]
    omega

theorem countRecognized_le (ms : List (Option String)) :
    countRecognized ms ≤ (ms.length : Int) := by
  have := List.length_filter_le recognizedSeverity ms
  simp only [countRecognized]
  exact_mod_cast this

theorem countRecognized_of_all (ms : List (Option String))
    (h : ∀ mt ∈ ms, recognizedSeverity mt = true) :
    countRecognized ms = (ms.length : Int) := by
  simp only [countRecognized]
  congr 1
  rw [List.filter_eq_self.mpr h]

/-! ## Claim theorems -/

/-- C2: whenever the resolved (mapped) target image is the generic minimal
base chainguard-base, the converted tag is exactly the literal latest — for
every input tag (including none) and with or without install commands in the
stage, so no development-variant suffix is ever appended. -/
theorem minimal_base_tag_always_latest (tag? : Option String) (baseImage : String)
    (hasRun : Bool) : convertTag tag? baseImage "chainguard-base" hasRun = "latest" := by
  have h : strContains "chainguard-base" "chainguard-base" = true := by decide
  unfold convertTag
  rw [h]
  rfl

/-- C8: for a FROM tag whose numeric part the converter's version regex
accepts (an optional dash-separated qualifier being discarded into
`version`), and a mapped image that is not the minimal base, the converted
tag is exactly the first two dot-separated components of the version, plus
the development suffix exactly when the stage has RUN commands. -/
theorem tag_truncation (tag version baseImage mappedImage : String) (hasRun : Bool)
    (hbase : strContains mappedImage "chainguard-base" = false)
    (hver : parseVersionTag tag = some version) :
    convertTag (some tag) baseImage mappedImage hasRun =
      joinWith "." (((splitOnChar '.' version.data).take 2).map String.mk) ++
        (if hasRun then "-dev" else "") := by
  have htag : tag ≠ "" := by
    intro h
    subst h
    rw [show parseVersionTag "" = none from rfl] at hver
    cases hver
  have hlat : tag ≠ "latest" := by
    intro h
    subst h
    rw [show parseVersionTag "latest" = none by decide] at hver
    cases hver
  have h1 : (tag == "") = false := beq_eq_false_iff_ne.mpr htag
  have h2 : (tag == "latest") = false := beq_eq_false_iff_ne.mpr hlat
  simp only [convertTag, hbase, Bool.false_eq_true, if_false, h1, h2, Bool.or_self, hver]
  cases hasRun
  · simp [str_append_nil]
  · simp

theorem tag_truncation_witness :
    strContains "python" "chainguard-base" = false ∧
    parseVersionTag "3.11.2" = some "3.11.2" ∧
    convertTag (some "3.11.2") "python" "python" false = "3.11" ∧
    strContains "node" "chainguard-base" = false ∧
    parseVersionTag "7" = some "7" ∧
    convertTag (some "7") "node" "node" false = "7" := by
  refine ⟨by decide, by decide, ?_, by decide, by decide, ?_⟩
  · rw [tag_truncation "3.11.2" "3.11.2" "python" "python" false (by decide) (by decide)]
    rfl
  · rw [tag_truncation "7" "7" "node" "node" false (by decide) (by decide)]
    rfl

/-- C3 (code bug): the maintenance-only chain `RUN apt-get update &&
apt-get clean` is not elided.  The update half is stripped and the rewrite
does recurse on the remainder, but `apt-get clean` is absent from the
detection substrings (only `dnf clean`/`yum clean` appear), so the
recursion returns `RUN apt-get clean` unchanged instead of the empty
replacement the code's own comment ("apt-get/dnf update or clean commands -
remove them") and its full-line regex (which lists `clean` for all four
managers) call for.  Lone update commands and the dnf/yum clean forms are
elided as documented. -/
theorem maintenance_elision_bug :
    convertRun builtinMappings "RUN apt-get update && apt-get clean" =
      ⟨"RUN apt-get clean", false⟩ ∧
    convertRun builtinMappings "RUN apt-get update" = ⟨"", false⟩ ∧
    convertRun builtinMappings "RUN apt-get clean" = ⟨"RUN apt-get clean", false⟩ ∧
    convertRun builtinMappings "RUN dnf clean all" = ⟨"", false⟩ ∧
    convertRun builtinMappings "RUN yum clean all" = ⟨"", false⟩ := by
  refine ⟨by decide, by decide, by decide, by decide, by decide⟩

/-- C4 counterexample: the result cached when the scan tool is missing has
all severity counts zero but total count -1, so the sum-equals-total
invariant fails on a stored scan result. -/
theorem scan_severity_sum_counterexample :
    ¬ (severitySum (scanImageNoGrype "cgr.dev/chainguard/node:18-dev") =
        (scanImageNoGrype "cgr.dev/chainguard/node:18-dev").cveCount) := by decide

/-- C4 (amended): severity counts sum to the number of matches carrying a
recognized severity tier — equal to cveCount exactly when every match is
recognized, and at most cveCount in general; the pending marker satisfies
the invariant trivially, while the tool-missing and scan-failure results
break it by construction (zero counts against a total of -1). -/
theorem scan_severity_sum_amended (image msg : String) (ms : List (Option String)) :
    severitySum (scanImageSuccess image ms) = countRecognized ms ∧
    severitySum (scanImageSuccess image ms) ≤ (scanImageSuccess image ms).cveCount ∧
    ((∀ mt ∈ ms, recognizedSeverity mt = true) →
      severitySum (scanImageSuccess image ms) = (scanImageSuccess image ms).cveCount) ∧
    severitySum (scanImagePending image) = (scanImagePending image).cveCount ∧
    severitySum (scanImageNoGrype image) = 0 ∧
    (scanImageNoGrype image).cveCount = -1 ∧
    severitySum (scanImageFailure image msg) = 0 ∧
    (scanImageFailure image msg).cveCount = -1 := by
  have hsum : severitySum (scanImageSuccess image ms) = countRecognized ms := by
    simp only [severitySum, scanImageSuccess]
    exact sum_countSev ms
  refine ⟨hsum, ?_, ?_, rfl, rfl, rfl, rfl, rfl⟩
  · rw [hsum]
    exact countRecognized_le ms
  · intro hall
    rw [hsum]
    exact countRecognized_of_all ms hall

theorem scan_severity_sum_amended_witness :
    (∀ mt ∈ [some "Critical", some "low"], recognizedSeverity mt = true) ∧
    severitySum (scanImageSuccess "img" [some "Critical", some "low"]) =
      (scanImageSuccess "img" [some "Critical", some "low"]).cveCount :=
  ⟨by decide,
    (scan_severity_sum_amended "img" "boom" [some "Critical", some "low"]).2.2.1 (by decide)⟩

/-- C5 (code bug): a failed index fetch is swallowed inside
fetchWolfiPackages, which resolves with an empty map; packageExists then
reports every queried package as missing (false).  The assume-exists catch
branch in packageExists is unreachable because its callee never rejects, so
the code returns false where the spec requires true. -/
theorem package_exists_on_fetch_failure (name : String) :
    fetchWolfiPackages none = [] ∧ packageExists none name = false :=
  ⟨rfl, rfl⟩

/-- C6: remediation lookup normalizes the caller's ecosystem label before
the key lookup (python and pypi are interchangeable), returns the empty list
rather than an error when the key is absent, and on a feed holding two
statements for pkg:pypi/requests the lookup for (requests, python) returns
exactly the feed's record list, whose aggregated fixed-vulnerability count
is 2. -/
theorem remediation_lookup (feed : VexMap) (name eco : String) :
    checkRemediationAvailability feed name "python" =
      checkRemediationAvailability feed name "pypi" ∧
    (feed.find? (fun e => e.1 == normalizeEcosystem eco ++ ":" ++ name) = none →
      checkRemediationAvailability feed name eco = []) ∧
    checkRemediationAvailability (parseVexData vexSampleFeed) "requests" "python" =
      ((parseVexData vexSampleFeed).find? (fun e => e.1 == "pypi:requests")).elim []
        Prod.snd ∧
    totalCvesFixed
      (checkRemediationAvailability (parseVexData vexSampleFeed) "requests" "python") = 2 ∧
    (checkRemediationAvailability (parseVexData vexSampleFeed) "requests" "python").length
      = 2 := by
  refine ⟨rfl, ?_, by decide, by decide, by decide⟩
  intro h
  simp only [checkRemediationAvailability, h]

theorem remediation_lookup_witness :
    checkRemediationAvailability [] "left-pad" "ruby" = [] :=
  (remediation_lookup [] "left-pad" "ruby").2.1 rfl

/-- C9: dependency parsing is total and silently empty off the table — any
ecosystem outside the three dispatch keys (in particular ruby) yields the
empty reference list for every file, a failing read or parse in any of the
four concrete parsers yields the empty list, and so does any dispatching
combination over a failing file system. -/
theorem dependency_parse_never_fails (filePath eco : String) (fs : DependencyFS) :
    (eco = "ruby" → parseDependencyFile fs filePath eco = []) ∧
    (¬ (eco = "python" ∨ eco = "javascript" ∨ eco = "java") →
      parseDependencyFile fs filePath eco = []) ∧
    parseDependencyFile ⟨none, none⟩ filePath eco = [] ∧
    parseRequirementsTxt none = [] ∧
    parsePackageJson none = [] ∧
    parsePomXml none = [] ∧
    parseBuildGradle none = [] := by
  refine ⟨?_, ?_, ?_, rfl, rfl, rfl, rfl⟩
  · rintro rfl
    rfl
  · intro h
    have h1 : (eco == "python") = false :=
      beq_eq_false_iff_ne.mpr fun hq => h (Or.inl hq)
    have h2 : (eco == "javascript") = false :=
      beq_eq_false_iff_ne.mpr fun hq => h (Or.inr (Or.inl hq))
    have h3 : (eco == "java") = false :=
      beq_eq_false_iff_ne.mpr fun hq => h (Or.inr (Or.inr hq))
    simp only [parseDependencyFile, h1, h2, h3, Bool.false_eq_true, if_false]
  · simp only [parseDependencyFile]
    split_ifs <;> rfl

theorem dependency_parse_never_fails_witness :
    parseDependencyFile ⟨some "gem rails", none⟩ "x/Gemfile" "ruby" = [] ∧
    parseDependencyFile ⟨some "x", some ⟨[], []⟩⟩ "f.lock" "rust" = [] ∧
    parseDependencyFile ⟨none, none⟩ "a/requirements.txt" "python" = [] :=
  ⟨(dependency_parse_never_fails "x/Gemfile" "ruby" ⟨some "gem rails", none⟩).1 rfl,
    (dependency_parse_never_fails "f.lock" "rust" ⟨some "x", some ⟨[], []⟩⟩).2.1 (by decide),
    (dependency_parse_never_fails "a/requirements.txt" "python" ⟨none, none⟩).2.2.1⟩

/-- C1 counterexample: converting the already-converted manifest
`FROM node:18` + `RUN apt-get install -y curl` again produces a nonempty
change list — the second pass re-prefixes the FROM line. -/
theorem convert_idempotence_counterexample :
    (convert builtinMappings "ORG"
        (convert builtinMappings "ORG"
          "FROM node:18\nRUN apt-get install -y curl").converted).changes ≠ [] := by
  decide

/-- C1 (amended): convert is not idempotent.  A second pass leaves the
already-rewritten RUN line (and the injected USER root line) untouched, but
re-parses the converted FROM line and prefixes the hardened registry path
again: on the sample manifest the second pass emits exactly one change,
rewriting FROM cgr.dev/ORG/node:18-dev to
FROM cgr.dev/ORG/cgr.dev/ORG/node:18-dev. -/
theorem convert_second_pass_reprefixes_from :
    (convert builtinMappings "ORG"
        (convert builtinMappings "ORG"
          "FROM node:18\nRUN apt-get install -y curl").converted).changes =
      [⟨0, "FROM cgr.dev/ORG/node:18-dev",
        "FROM cgr.dev/ORG/cgr.dev/ORG/node:18-dev", .fromC⟩] ∧
    (convert builtinMappings "ORG"
        (convert builtinMappings "ORG"
          "FROM node:18\nRUN apt-get install -y curl").converted).converted =
      "FROM cgr.dev/ORG/cgr.dev/ORG/node:18-dev\nUSER root\nRUN apk add --no-cache curl"
    := by
  refine ⟨by decide, by decide⟩

/-- C10: a FROM line of the recognized shape whose image has no mapping
entry (no exact name:tag or name entry, no matching wildcard pattern) is
still rewritten: the bare name is kept but re-prefixed with the hardened
registry path, and the tag still goes through tag conversion. -/
theorem unmapped_image_still_rewritten (m : MappingsConfig) (org line : String)
    (hasRun : Bool) (fp : FromParts)
    (hp : parseFrom line = some fp)
    (h1 : lookupImage m
      (match fp.tag with | some t => fp.image ++ ":" ++ t | none => fp.image) = none)
    (h2 : lookupImage m fp.image = none)
    (h3 : m.images.find?
      (fun e => strEndsWith e.1 "*" && strStartsWith fp.image (strDropRight e.1 1)) = none) :
    convertFrom m org line hasRun =
      fp.indent ++ "FROM cgr.dev/" ++ org ++ "/" ++ fp.image ++ ":" ++
        convertTag fp.tag fp.image fp.image hasRun ++ fp.aliasPart.getD "" ++ fp.trailing
    := by
  have hmap : findImageMapping m
      (match fp.tag with | some t => fp.image ++ ":" ++ t | none => fp.image) fp.image
      = fp.image := by
    unfold findImageMapping
    rw [h1, h2, h3]
  simp only [convertFrom, hp, hmap]
  rw [takeUntilColon_of_noColon fp.image (parseFrom_image_noColon line fp hp)]

/-! ### Fuel irrelevance and unfolding equations for the conversion loop -/

theorem convertLoopF_irrel (m : MappingsConfig) (org : String) :
    ∀ (f1 : Nat) (S : List String) (i : Nat) (b : Bool) (f2 : Nat),
      S.length ≤ f1 → S.length ≤ f2 →
      convertLoopF m org f1 S i b = convertLoopF m org f2 S i b := by
  intro f1
  induction f1 with
  | zero =>
    intro S i b f2 h1 h2
    have hS : S = [] := List.length_eq_zero.mp (Nat.le_zero.mp h1)
    subst hS
    cases f2 <;> rfl
  | succ f ih =>
    intro S i b f2 h1 h2
    cases S with
    | nil => cases f2 <;> rfl
    | cons line rest =>
      cases f2 with
      | zero => simp at h2
      | succ g =>
        simp only [List.length_cons, Nat.succ_le_succ_iff] at h1 h2
        simp only [convertLoopF]
        by_cases hf : isFromLine line = true
        · simp only [if_pos hf]
          rw [ih rest (i + 1) false g h1 h2]
        · simp only [if_neg hf]
          by_cases hr : isRunLine line = true
          · simp only [if_pos hr]
            have hd1 : (rest.drop ((readMultilineCommand line rest).2 - 1)).length ≤ f := by
              have := List.length_drop ((readMultilineCommand line rest).2 - 1) rest
              omega
            have hd2 : (rest.drop ((readMultilineCommand line rest).2 - 1)).length ≤ g := by
              have := List.length_drop ((readMultilineCommand line rest).2 - 1) rest
              omega
            rw [ih _ _ _ g hd1 hd2]
          · simp only [if_neg hr]
            by_cases hu : isUserMgmtLine line = true
            · simp only [if_pos hu]
              rw [ih rest (i + 1) b g h1 h2]
            · simp only [if_neg hu]
              rw [ih rest (i + 1) b g h1 h2]

theorem stageSplitF_irrel (m : MappingsConfig) :
    ∀ (f1 : Nat) (S : List String) (f2 : Nat),
      S.length ≤ f1 → S.length ≤ f2 → stageSplitF m f1 S = stageSplitF m f2 S := by
  intro f1
  induction f1 with
  | zero =>
    intro S f2 h1 h2
    have hS : S = [] := List.length_eq_zero.mp (Nat.le_zero.mp h1)
    subst hS
    cases f2 <;> rfl
  | succ f ih =>
    intro S f2 h1 h2
    cases S with
    | nil => cases f2 <;> rfl
    | cons line rest =>
      cases f2 with
      | zero => simp at h2
      | succ g =>
        simp only [List.length_cons, Nat.succ_le_succ_iff] at h1 h2
        simp only [stageSplitF]
        by_cases hr : isRunLine line = true
        · simp only [if_pos hr]
          by_cases hn : (convertRun m (readMultilineCommand line rest).1).needsRoot = true
          · simp only [if_pos hn]
          · simp only [if_neg hn]
            have hd1 : (rest.drop ((readMultilineCommand line rest).2 - 1)).length ≤ f := by
              have := List.length_drop ((readMultilineCommand line rest).2 - 1) rest
              omega
            have hd2 : (rest.drop ((readMultilineCommand line rest).2 - 1)).length ≤ g := by
              have := List.length_drop ((readMultilineCommand line rest).2 - 1) rest
              omega
            rw [ih _ g hd1 hd2]
        · simp only [if_neg hr]
          rw [ih rest g h1 h2]

theorem stageNeedsRootF_irrel (m : MappingsConfig) :
    ∀ (f1 : Nat) (S : List String) (f2 : Nat),
      S.length ≤ f1 → S.length ≤ f2 → stageNeedsRootF m f1 S = stageNeedsRootF m f2 S := by
  intro f1
  induction f1 with
  | zero =>
    intro S f2 h1 h2
    have hS : S = [] := List.length_eq_zero.mp (Nat.le_zero.mp h1)
    subst hS
    cases f2 <;> rfl
  | succ f ih =>
    intro S f2 h1 h2
    cases S with
    | nil => cases f2 <;> rfl
    | cons line rest =>
      cases f2 with
      | zero => simp at h2
      | succ g =>
        simp only [List.length_cons, Nat.succ_le_succ_iff] at h1 h2
        simp only [stageNeedsRootF]
        by_cases hr : isRunLine line = true
        · simp only [if_pos hr]
          by_cases hn : (convertRun m (readMultilineCommand line rest).1).needsRoot = true
          · simp only [if_pos hn]
          · simp only [if_neg hn]
            have hd1 : (rest.drop ((readMultilineCommand line rest).2 - 1)).length ≤ f := by
              have := List.length_drop ((readMultilineCommand line rest).2 - 1) rest
              omega
            have hd2 : (rest.drop ((readMultilineCommand line rest).2 - 1)).length ≤ g := by
              have := List.length_drop ((readMultilineCommand line rest).2 - 1) rest
              omega
            rw [ih _ g hd1 hd2]
        · simp only [if_neg hr]
          rw [ih rest g h1 h2]

theorem str_append_data (x y : String) : (x ++ y).data = x.data ++ y.data := by
  cases x
  cases y
  rfl

theorem injectedCount_cons (c : Change) (chs : List Change) :
    injectedCount (c :: chs) =
      (if injectedUserRoot c then 1 else 0) + injectedCount chs := by
  simp only [injectedCount, List.filter_cons]
  split <;> simp [Nat.add_comm]

theorem injectedCount_append (a b : List Change) :
    injectedCount (a ++ b) = injectedCount a + injectedCount b := by
  simp [injectedCount, List.filter_append]

theorem isRunLine_ne_empty (line : String) (h : isRunLine line = true) : line ≠ "" := by
  intro he
  subst he
  exact absurd h (by decide)

theorem isUserMgmtLine_ne_empty (line : String) (h : isUserMgmtLine line = true) :
    line ≠ "" := by
  intro he
  subst he
  exact absurd h (by decide)

theorem readMultilineCommand_fst_ne_empty :
    ∀ (rest : List String) (acc : String), acc ≠ "" →
      (readMultilineCommand acc rest).1 ≠ "" := by
  intro rest
  induction rest with
  | nil => intro acc h; exact h
  | cons next rs ih =>
    intro acc h
    simp only [readMultilineCommand]
    by_cases hb : strEndsWith (strTrimEnd acc) "\\" = true
    · rw [if_pos hb]
      refine ih _ ?_
      intro hj
      have : (strDropRight (strTrimEnd acc) 1 ++ " " ++ strTrim next).data = [] := by
        rw [hj]
      rw [str_append_data, str_append_data] at this
      simp at this
    · rw [if_neg hb]
      exact h

theorem readMultilineCommand_pos :
    ∀ (rest : List String) (acc : String),
      1 ≤ (readMultilineCommand acc rest).2 ∧
        (readMultilineCommand acc rest).2 - 1 ≤ rest.length := by
  intro rest
  induction rest with
  | nil => intro acc; exact ⟨Nat.le_refl 1, by simp [readMultilineCommand]⟩
  | cons next rs ih =>
    intro acc
    simp only [readMultilineCommand]
    by_cases hb : strEndsWith (strTrimEnd acc) "\\" = true
    · rw [if_pos hb]
      have := ih (strDropRight (strTrimEnd acc) 1 ++ " " ++ strTrim next)
      constructor
      · omega
      · simp only [List.length_cons]
        omega
    · rw [if_neg hb]
      exact ⟨Nat.le_refl 1, by simp⟩

theorem readMultilineCommand_ends :
    ∀ (rest : List String) (acc : String),
      strEndsWith (strTrimEnd (readMultilineCommand acc rest).1) "\\" = true →
      (readMultilineCommand acc rest).2 - 1 = rest.length := by
  intro rest
  induction rest with
  | nil =>
    intro acc h
    simp [readMultilineCommand]
  | cons next rs ih =>
    intro acc h
    simp only [readMultilineCommand] at h ⊢
    by_cases hb : strEndsWith (strTrimEnd acc) "\\" = true
    · rw [if_pos hb] at h ⊢
      have h2 := ih (strDropRight (strTrimEnd acc) 1 ++ " " ++ strTrim next) h
      have h3 := readMultilineCommand_pos rs (strDropRight (strTrimEnd acc) 1 ++ " " ++ strTrim next)
      simp only [List.length_cons]
      omega
    · rw [if_neg hb] at h ⊢
      exact absurd h hb

theorem readMultilineCommand_splice :
    ∀ (rest : List String) (acc : String) (Q : List String),
      strEndsWith (strTrimEnd (readMultilineCommand acc rest).1) "\\" = false →
      readMultilineCommand acc (rest.take ((readMultilineCommand acc rest).2 - 1) ++ Q) =
        readMultilineCommand acc rest := by
  intro rest
  induction rest with
  | nil =>
    intro acc Q h
    simp only [readMultilineCommand] at h ⊢
    simp only [List.take_nil, List.nil_append]
    cases Q with
    | nil => rfl
    | cons q qs =>
      simp only [readMultilineCommand]
      rw [if_neg (by simp [h])]
  | cons next rs ih =>
    intro acc Q h
    by_cases hb : strEndsWith (strTrimEnd acc) "\\" = true
    · have hun : readMultilineCommand acc (next :: rs) =
          ((readMultilineCommand (strDropRight (strTrimEnd acc) 1 ++ " " ++ strTrim next) rs).1,
            (readMultilineCommand (strDropRight (strTrimEnd acc) 1 ++ " " ++ strTrim next) rs).2
              + 1) := by
        simp only [readMultilineCommand]
        rw [if_pos hb]
      rw [hun] at h
      rw [hun]
      dsimp only at h ⊢
      set j := strDropRight (strTrimEnd acc) 1 ++ " " ++ strTrim next with hj
      have hpos := readMultilineCommand_pos rs j
      have htake : (readMultilineCommand j rs).2 + 1 - 1 =
          ((readMultilineCommand j rs).2 - 1) + 1 := by
        omega
      rw [htake, List.take_succ_cons, List.cons_append]
      have hun2 : readMultilineCommand acc
          (next :: (List.take ((readMultilineCommand j rs).2 - 1) rs ++ Q)) =
          ((readMultilineCommand j
              (List.take ((readMultilineCommand j rs).2 - 1) rs ++ Q)).1,
            (readMultilineCommand j
              (List.take ((readMultilineCommand j rs).2 - 1) rs ++ Q)).2 + 1) := by
        simp only [readMultilineCommand]
        rw [if_pos hb, ← hj]
      rw [hun2, ih j Q h]
    · have hun : readMultilineCommand acc (next :: rs) = (acc, 1) := by
        simp only [readMultilineCommand]
        rw [if_neg hb]
      rw [hun] at h
      rw [hun]
      dsimp only at h ⊢
      simp only [Nat.sub_self, List.take_zero, List.nil_append]
      cases Q with
      | nil => rfl
      | cons q qs =>
        simp only [readMultilineCommand]
        rw [if_neg hb]

theorem convertLoop_nil (m : MappingsConfig) (org : String) (i : Nat) (b : Bool) :
    convertLoop m org [] i b = ([], []) := rfl

theorem convertLoop_cons_from (m : MappingsConfig) (org line : String)
    (rest : List String) (i : Nat) (b : Bool) (h : isFromLine line = true) :
    convertLoop m org (line :: rest) i b =
      fromLineOut i line (convertFrom m org line (checkStageHasRun rest))
        (convertLoop m org rest (i + 1) false) := by
  show convertLoopF m org (rest.length + 1) (line :: rest) i b = _
  simp only [convertLoopF, if_pos h]
  rfl

theorem convertLoop_cons_run (m : MappingsConfig) (org line : String)
    (rest : List String) (i : Nat) (b : Bool)
    (h1 : isFromLine line = false) (h2 : isRunLine line = true) :
    convertLoop m org (line :: rest) i b =
      runLineOut i b (readMultilineCommand line rest)
        (convertRun m (readMultilineCommand line rest).1)
        (convertLoop m org (rest.drop ((readMultilineCommand line rest).2 - 1))
          (i + (readMultilineCommand line rest).2)
          (b || (convertRun m (readMultilineCommand line rest).1).needsRoot)) := by
  have hf : ¬ (isFromLine line = true) := by simp [h1]
  show convertLoopF m org (rest.length + 1) (line :: rest) i b = _
  simp only [convertLoopF, if_neg hf, if_pos h2]
  rw [convertLoopF_irrel m org rest.length _ _ _
    (rest.drop ((readMultilineCommand line rest).2 - 1)).length
    (by have := List.length_drop ((readMultilineCommand line rest).2 - 1) rest; omega)
    (Nat.le_refl _)]
  rfl

theorem convertLoop_cons_user (m : MappingsConfig) (org line : String)
    (rest : List String) (i : Nat) (b : Bool)
    (h1 : isFromLine line = false) (h2 : isRunLine line = false)
    (h3 : isUserMgmtLine line = true) :
    convertLoop m org (line :: rest) i b =
      userLineOut i line (convertUserManagement line) (convertLoop m org rest (i + 1) b)
    := by
  have hf : ¬ (isFromLine line = true) := by simp [h1]
  have hr : ¬ (isRunLine line = true) := by simp [h2]
  show convertLoopF m org (rest.length + 1) (line :: rest) i b = _
  simp only [convertLoopF, if_neg hf, if_neg hr, if_pos h3]
  rfl

theorem convertLoop_cons_other (m : MappingsConfig) (org line : String)
    (rest : List String) (i : Nat) (b : Bool)
    (h1 : isFromLine line = false) (h2 : isRunLine line = false)
    (h3 : isUserMgmtLine line = false) :
    convertLoop m org (line :: rest) i b =
      (line :: (convertLoop m org rest (i + 1) b).1,
        (convertLoop m org rest (i + 1) b).2) := by
  have hf : ¬ (isFromLine line = true) := by simp [h1]
  have hr : ¬ (isRunLine line = true) := by simp [h2]
  have hu : ¬ (isUserMgmtLine line = true) := by simp [h3]
  show convertLoopF m org (rest.length + 1) (line :: rest) i b = _
  simp only [convertLoopF, if_neg hf, if_neg hr, if_neg hu]
  rfl

theorem stageSplit_nil (m : MappingsConfig) : stageSplit m [] = none := rfl

theorem stageSplit_cons_run (m : MappingsConfig) (line : String) (rest : List String)
    (h : isRunLine line = true) :
    stageSplit m (line :: rest) =
      (if (convertRun m (readMultilineCommand line rest).1).needsRoot then
        some ([], (readMultilineCommand line rest).1, (readMultilineCommand line rest).2,
          rest.drop ((readMultilineCommand line rest).2 - 1))
      else
        (stageSplit m (rest.drop ((readMultilineCommand line rest).2 - 1))).map
          fun q => (line :: (rest.take ((readMultilineCommand line rest).2 - 1) ++ q.1),
            q.2.1, q.2.2.1, q.2.2.2)) := by
  show stageSplitF m (rest.length + 1) (line :: rest) = _
  simp only [stageSplitF, if_pos h]
  rw [stageSplitF_irrel m rest.length _
    (rest.drop ((readMultilineCommand line rest).2 - 1)).length
    (by have := List.length_drop ((readMultilineCommand line rest).2 - 1) rest; omega)
    (Nat.le_refl _)]
  rfl

theorem stageSplit_cons_other (m : MappingsConfig) (line : String) (rest : List String)
    (h : isRunLine line = false) :
    stageSplit m (line :: rest) =
      (stageSplit m rest).map fun q => (line :: q.1, q.2.1, q.2.2.1, q.2.2.2) := by
  have hr : ¬ (isRunLine line = true) := by simp [h]
  show stageSplitF m (rest.length + 1) (line :: rest) = _
  simp only [stageSplitF, if_neg hr]
  rfl

theorem stageNeedsRoot_nil (m : MappingsConfig) : stageNeedsRoot m [] = false := rfl

theorem stageNeedsRoot_cons_run (m : MappingsConfig) (line : String) (rest : List String)
    (h : isRunLine line = true) :
    stageNeedsRoot m (line :: rest) =
      (if (convertRun m (readMultilineCommand line rest).1).needsRoot then true
       else stageNeedsRoot m (rest.drop ((readMultilineCommand line rest).2 - 1))) := by
  show stageNeedsRootF m (rest.length + 1) (line :: rest) = _
  simp only [stageNeedsRootF, if_pos h]
  rw [stageNeedsRootF_irrel m rest.length _
    (rest.drop ((readMultilineCommand line rest).2 - 1)).length
    (by have := List.length_drop ((readMultilineCommand line rest).2 - 1) rest; omega)
    (Nat.le_refl _)]
  rfl

theorem stageNeedsRoot_cons_other (m : MappingsConfig) (line : String)
    (rest : List String) (h : isRunLine line = false) :
    stageNeedsRoot m (line :: rest) = stageNeedsRoot m rest := by
  have hr : ¬ (isRunLine line = true) := by simp [h]
  show stageNeedsRootF m (rest.length + 1) (line :: rest) = _
  simp only [stageNeedsRootF, if_neg hr]
  rfl

theorem bool_eq_false {b : Bool} (h : ¬ b = true) : b = false := by
  cases b
  · rfl
  · exact absurd rfl h

/-- A stage needs no escalation exactly when the split finds no
root-requiring RUN command. -/
theorem stageSplit_none_iff (m : MappingsConfig) :
    ∀ (N : Nat) (S : List String), S.length ≤ N →
      (stageSplit m S = none ↔ stageNeedsRoot m S = false) := by
  intro N
  induction N with
  | zero =>
    intro S h
    have hS : S = [] := List.length_eq_zero.mp (Nat.le_zero.mp h)
    subst hS
    simp [stageSplit_nil, stageNeedsRoot_nil]
  | succ N ih =>
    intro S h
    cases S with
    | nil => simp [stageSplit_nil, stageNeedsRoot_nil]
    | cons line rest =>
      simp only [List.length_cons, Nat.succ_le_succ_iff] at h
      by_cases hr : isRunLine line = true
      · rw [stageSplit_cons_run m line rest hr, stageNeedsRoot_cons_run m line rest hr]
        by_cases hn : (convertRun m (readMultilineCommand line rest).1).needsRoot = true
        · rw [if_pos hn, if_pos hn]
          simp
        · rw [if_neg hn, if_neg hn]
          rw [Option.map_eq_none']
          exact ih _ (by
            have := List.length_drop ((readMultilineCommand line rest).2 - 1) rest
            omega)
      · have hr' := bool_eq_false hr
        rw [stageSplit_cons_other m line rest hr', stageNeedsRoot_cons_other m line rest hr']
        rw [Option.map_eq_none']
        exact ih rest h

/-- The split's prefix and suffix consist of lines of the stage. -/
theorem stageSplit_mem (m : MappingsConfig) :
    ∀ (N : Nat) (S : List String), S.length ≤ N →
      ∀ P f k T, stageSplit m S = some (P, f, k, T) →
        (∀ l ∈ P, l ∈ S) ∧ (∀ l ∈ T, l ∈ S) := by
  intro N
  induction N with
  | zero =>
    intro S h P f k T hsp
    have hS : S = [] := List.length_eq_zero.mp (Nat.le_zero.mp h)
    subst hS
    exact absurd hsp (by simp [stageSplit_nil])
  | succ N ih =>
    intro S h P f k T hsp
    cases S with
    | nil => exact absurd hsp (by simp [stageSplit_nil])
    | cons line rest =>
      simp only [List.length_cons, Nat.succ_le_succ_iff] at h
      by_cases hr : isRunLine line = true
      · rw [stageSplit_cons_run m line rest hr] at hsp
        by_cases hn : (convertRun m (readMultilineCommand line rest).1).needsRoot = true
        · rw [if_pos hn] at hsp
          obtain ⟨rfl, rfl, rfl, rfl⟩ :
              [] = P ∧ (readMultilineCommand line rest).1 = f ∧
                (readMultilineCommand line rest).2 = k ∧
                rest.drop ((readMultilineCommand line rest).2 - 1) = T := by
            have := Option.some.inj hsp
            exact ⟨congrArg (fun q => q.1) this, congrArg (fun q => q.2.1) this,
              congrArg (fun q => q.2.2.1) this, congrArg (fun q => q.2.2.2) this⟩
          refine ⟨fun l hl => absurd hl (List.not_mem_nil l), fun l hl => ?_⟩
          exact List.mem_cons_of_mem _ (List.drop_subset _ _ hl)
        · rw [if_neg hn] at hsp
          obtain ⟨⟨P', f', k', T'⟩, hq, hy⟩ := Option.map_eq_some'.mp hsp
          have hlen : (rest.drop ((readMultilineCommand line rest).2 - 1)).length ≤ N := by
            have := List.length_drop ((readMultilineCommand line rest).2 - 1) rest
            omega
          have hih := ih _ hlen P' f' k' T' hq
          obtain ⟨rfl, rfl, rfl, rfl⟩ :
              line :: (rest.take ((readMultilineCommand line rest).2 - 1) ++ P') = P ∧
                f' = f ∧ k' = k ∧ T' = T := by
            exact ⟨congrArg (fun q => q.1) hy, congrArg (fun q => q.2.1) hy,
              congrArg (fun q => q.2.2.1) hy, congrArg (fun q => q.2.2.2) hy⟩
          constructor
          · intro l hl
            rcases List.mem_cons.mp hl with rfl | hl
            · exact List.mem_cons_self _ _
            · rcases List.mem_append.mp hl with hl | hl
              · exact List.mem_cons_of_mem _ (List.take_subset _ _ hl)
              · exact List.mem_cons_of_mem _ (List.drop_subset _ _ (hih.1 l hl))
          · intro l hl
            exact List.mem_cons_of_mem _ (List.drop_subset _ _ (hih.2 l hl))
      · have hr' := bool_eq_false hr
        rw [stageSplit_cons_other m line rest hr'] at hsp
        obtain ⟨⟨P', f', k', T'⟩, hq, hy⟩ := Option.map_eq_some'.mp hsp
        have hih := ih rest h P' f' k' T' hq
        obtain ⟨rfl, rfl, rfl, rfl⟩ : line :: P' = P ∧ f' = f ∧ k' = k ∧ T' = T := by
          exact ⟨congrArg (fun q => q.1) hy, congrArg (fun q => q.2.1) hy,
            congrArg (fun q => q.2.2.1) hy, congrArg (fun q => q.2.2.2) hy⟩
        constructor
        · intro l hl
          rcases List.mem_cons.mp hl with rfl | hl
          · exact List.mem_cons_self _ _
          · exact List.mem_cons_of_mem _ (hih.1 l hl)
        · intro l hl
          exact List.mem_cons_of_mem _ (hih.2 l hl)

/-- The command isolated by the split is nonempty and its conversion
requires escalation. -/
theorem stageSplit_cmd (m : MappingsConfig) :
    ∀ (N : Nat) (S : List String), S.length ≤ N →
      ∀ P f k T, stageSplit m S = some (P, f, k, T) →
        f ≠ "" ∧ (convertRun m f).needsRoot = true := by
  intro N
  induction N with
  | zero =>
    intro S h P f k T hsp
    have hS : S = [] := List.length_eq_zero.mp (Nat.le_zero.mp h)
    subst hS
    exact absurd hsp (by simp [stageSplit_nil])
  | succ N ih =>
    intro S h P f k T hsp
    cases S with
    | nil => exact absurd hsp (by simp [stageSplit_nil])
    | cons line rest =>
      simp only [List.length_cons, Nat.succ_le_succ_iff] at h
      by_cases hr : isRunLine line = true
      · rw [stageSplit_cons_run m line rest hr] at hsp
        by_cases hn : (convertRun m (readMultilineCommand line rest).1).needsRoot = true
        · rw [if_pos hn] at hsp
          have hf : (readMultilineCommand line rest).1 = f :=
            congrArg (fun q => q.2.1) (Option.some.inj hsp)
          subst hf
          exact ⟨readMultilineCommand_fst_ne_empty rest line (isRunLine_ne_empty line hr), hn⟩
        · rw [if_neg hn] at hsp
          obtain ⟨⟨P', f', k', T'⟩, hq, hy⟩ := Option.map_eq_some'.mp hsp
          have hf : f' = f := congrArg (fun q => q.2.1) hy
          subst hf
          exact ih _ (by
            have := List.length_drop ((readMultilineCommand line rest).2 - 1) rest
            omega) _ _ _ _ hq
      · have hr' := bool_eq_false hr
        rw [stageSplit_cons_other m line rest hr'] at hsp
        obtain ⟨⟨P', f', k', T'⟩, hq, hy⟩ := Option.map_eq_some'.mp hsp
        have hf : f' = f := congrArg (fun q => q.2.1) hy
        subst hf
        exact ih rest h _ _ _ _ hq

/-- Once the escalation flag is set, the rest of the stage inserts no
further USER root change. -/
theorem convertLoop_true_no_inject (m : MappingsConfig) (org : String) :
    ∀ (N : Nat) (S : List String), S.length ≤ N →
      (∀ l ∈ S, isFromLine l = false) → ∀ i,
      injectedCount (convertLoop m org S i true).2 = 0 := by
  intro N
  induction N with
  | zero =>
    intro S h hS i
    have hz : S = [] := List.length_eq_zero.mp (Nat.le_zero.mp h)
    subst hz
    rfl
  | succ N ih =>
    intro S h hS i
    cases S with
    | nil => rfl
    | cons line rest =>
      simp only [List.length_cons, Nat.succ_le_succ_iff] at h
      have hfrom : isFromLine line = false := hS line (List.mem_cons_self _ _)
      have hSr : ∀ l ∈ rest, isFromLine l = false :=
        fun l hl => hS l (List.mem_cons_of_mem _ hl)
      by_cases hr : isRunLine line = true
      · rw [convertLoop_cons_run m org line rest i true hfrom hr]
        simp only [runLineOut, Bool.not_true, Bool.and_false, Bool.false_eq_true, if_false,
          Bool.true_or]
        have hne : ((readMultilineCommand line rest).1 == "") = false :=
          beq_eq_false_iff_ne.mpr
            (readMultilineCommand_fst_ne_empty rest line (isRunLine_ne_empty line hr))
        have hdrop : ∀ l ∈ rest.drop ((readMultilineCommand line rest).2 - 1),
            isFromLine l = false :=
          fun l hl => hSr l (List.drop_subset _ _ hl)
        have hlen : (rest.drop ((readMultilineCommand line rest).2 - 1)).length ≤ N := by
          have := List.length_drop ((readMultilineCommand line rest).2 - 1) rest
          omega
        split
        · exact ih _ hlen hdrop _
        · rw [injectedCount_cons]
          simp only [injectedUserRoot, hne, Bool.false_eq_true, if_false]
          rw [ih _ hlen hdrop _]
      · by_cases hu : isUserMgmtLine line = true
        · rw [convertLoop_cons_user m org line rest i true hfrom (bool_eq_false hr) hu]
          simp only [userLineOut]
          have hne : (line == "") = false :=
            beq_eq_false_iff_ne.mpr (isUserMgmtLine_ne_empty line hu)
          split
          · exact ih rest h hSr _
          · rw [injectedCount_cons]
            simp only [injectedUserRoot, hne, Bool.false_eq_true, if_false]
            rw [ih rest h hSr _]
        · rw [convertLoop_cons_other m org line rest i true hfrom (bool_eq_false hr)
            (bool_eq_false hu)]
          exact ih rest h hSr _

/-- A stage whose split finds no root-requiring command inserts no USER
root change. -/
theorem convertLoop_false_no_inject (m : MappingsConfig) (org : String) :
    ∀ (N : Nat) (S : List String), S.length ≤ N →
      (∀ l ∈ S, isFromLine l = false) → stageSplit m S = none → ∀ i,
      injectedCount (convertLoop m org S i false).2 = 0 := by
  intro N
  induction N with
  | zero =>
    intro S h hS hsp i
    have hz : S = [] := List.length_eq_zero.mp (Nat.le_zero.mp h)
    subst hz
    rfl
  | succ N ih =>
    intro S h hS hsp i
    cases S with
    | nil => rfl
    | cons line rest =>
      simp only [List.length_cons, Nat.succ_le_succ_iff] at h
      have hfrom : isFromLine line = false := hS line (List.mem_cons_self _ _)
      have hSr : ∀ l ∈ rest, isFromLine l = false :=
        fun l hl => hS l (List.mem_cons_of_mem _ hl)
      by_cases hr : isRunLine line = true
      · rw [stageSplit_cons_run m line rest hr] at hsp
        by_cases hn : (convertRun m (readMultilineCommand line rest).1).needsRoot = true
        · rw [if_pos hn] at hsp
          exact absurd hsp (by simp)
        · rw [if_neg hn] at hsp
          have hrec := Option.map_eq_none'.mp hsp
          rw [convertLoop_cons_run m org line rest i false hfrom hr]
          simp only [runLineOut, bool_eq_false hn, Bool.false_and, Bool.false_eq_true,
            if_false, Bool.or_false]
          have hne : ((readMultilineCommand line rest).1 == "") = false :=
            beq_eq_false_iff_ne.mpr
              (readMultilineCommand_fst_ne_empty rest line (isRunLine_ne_empty line hr))
          have hdrop : ∀ l ∈ rest.drop ((readMultilineCommand line rest).2 - 1),
              isFromLine l = false :=
            fun l hl => hSr l (List.drop_subset _ _ hl)
          have hlen : (rest.drop ((readMultilineCommand line rest).2 - 1)).length ≤ N := by
            have := List.length_drop ((readMultilineCommand line rest).2 - 1) rest
            omega
          split
          · exact ih _ hlen hdrop hrec _
          · rw [injectedCount_cons]
            simp only [injectedUserRoot, hne, Bool.false_eq_true, if_false]
            rw [ih _ hlen hdrop hrec _]
      · have hr' := bool_eq_false hr
        rw [stageSplit_cons_other m line rest hr'] at hsp
        have hrec := Option.map_eq_none'.mp hsp
        by_cases hu : isUserMgmtLine line = true
        · rw [convertLoop_cons_user m org line rest i false hfrom hr' hu]
          simp only [userLineOut]
          have hne : (line == "") = false :=
            beq_eq_false_iff_ne.mpr (isUserMgmtLine_ne_empty line hu)
          split
          · exact ih rest h hSr hrec _
          · rw [injectedCount_cons]
            simp only [injectedUserRoot, hne, Bool.false_eq_true, if_false]
            rw [ih rest h hSr hrec _]
        · rw [convertLoop_cons_other m org line rest i false hfrom hr' (bool_eq_false hu)]
          exact ih rest h hSr hrec _

/-- Master characterization: on a FROM-free stage body whose split isolates
the first root-requiring RUN command, the conversion output is the prefix's
output, then the injected USER root line immediately before the formatted
converted command, then the suffix processed with the escalation flag set;
the change list decomposes accordingly. -/
theorem convertLoop_split_eq (m : MappingsConfig) (org : String) :
    ∀ (N : Nat) (S : List String), S.length ≤ N →
      (∀ l ∈ S, isFromLine l = false) →
      ∀ P f k T, stageSplit m S = some (P, f, k, T) → ∀ i,
        (convertLoop m org S i false).1 =
          (convertLoop m org P i false).1 ++
            "USER root" :: (formatMultilineCommand (convertRun m f).converted k ++
              (convertLoop m org T (i + P.length + k) true).1) ∧
        (convertLoop m org S i false).2 =
          (convertLoop m org P i false).2 ++
            ⟨i + P.length, "", "USER root", .userC⟩ ::
              ((if strTrim f == strTrim (convertRun m f).converted then []
                else [⟨i + P.length, f, (convertRun m f).converted, .runC⟩]) ++
                (convertLoop m org T (i + P.length + k) true).2) := by
  intro N
  induction N with
  | zero =>
    intro S h hS P f k T hsp i
    have hz : S = [] := List.length_eq_zero.mp (Nat.le_zero.mp h)
    subst hz
    exact absurd hsp (by simp [stageSplit_nil])
  | succ N ih =>
    intro S h hS P f k T hsp i
    cases S with
    | nil => exact absurd hsp (by simp [stageSplit_nil])
    | cons line rest =>
      simp only [List.length_cons, Nat.succ_le_succ_iff] at h
      have hfrom : isFromLine line = false := hS line (List.mem_cons_self _ _)
      have hSr : ∀ l ∈ rest, isFromLine l = false :=
        fun l hl => hS l (List.mem_cons_of_mem _ hl)
      by_cases hr : isRunLine line = true
      · rw [stageSplit_cons_run m line rest hr] at hsp
        by_cases hn : (convertRun m (readMultilineCommand line rest).1).needsRoot = true
        · rw [if_pos hn] at hsp
          obtain ⟨rfl, rfl, rfl, rfl⟩ :
              [] = P ∧ (readMultilineCommand line rest).1 = f ∧
                (readMultilineCommand line rest).2 = k ∧
                rest.drop ((readMultilineCommand line rest).2 - 1) = T := by
            have hq := Option.some.inj hsp
            exact ⟨congrArg (fun q => q.1) hq, congrArg (fun q => q.2.1) hq,
              congrArg (fun q => q.2.2.1) hq, congrArg (fun q => q.2.2.2) hq⟩
          rw [convertLoop_cons_run m org line rest i false hfrom hr]
          simp only [runLineOut, hn, Bool.not_false, Bool.and_self, Bool.false_or,
            if_true, convertLoop_nil, List.nil_append, List.length_nil, Nat.add_zero]
          constructor
          · trivial
          · by_cases ht : (strTrim (readMultilineCommand line rest).1 ==
                strTrim (convertRun m (readMultilineCommand line rest).1).converted) = true
            · rw [if_pos ht, if_pos ht]
              simp
            · rw [if_neg ht, if_neg ht]
              simp
        · rw [if_neg hn] at hsp
          have hn' := bool_eq_false hn
          obtain ⟨⟨P', f', k', T'⟩, hq, hy⟩ := Option.map_eq_some'.mp hsp
          obtain ⟨rfl, rfl, rfl, rfl⟩ :
              line :: (rest.take ((readMultilineCommand line rest).2 - 1) ++ P') = P ∧
                f' = f ∧ k' = k ∧ T' = T := by
            exact ⟨congrArg (fun q => q.1) hy, congrArg (fun q => q.2.1) hy,
              congrArg (fun q => q.2.2.1) hy, congrArg (fun q => q.2.2.2) hy⟩
          have hend : strEndsWith (strTrimEnd (readMultilineCommand line rest).1) "\\"
              = false := by
            rcases Bool.eq_false_or_eq_true
              (strEndsWith (strTrimEnd (readMultilineCommand line rest).1) "\\") with
              he | he
            · exfalso
              have hlenr := readMultilineCommand_ends rest line he
              have hz : rest.drop ((readMultilineCommand line rest).2 - 1) = [] := by
                apply List.length_eq_zero.mp
                rw [List.length_drop]
                omega
              rw [hz, stageSplit_nil] at hq
              exact absurd hq (by simp)
            · exact he
          have hlen : (rest.drop ((readMultilineCommand line rest).2 - 1)).length ≤ N := by
            have := List.length_drop ((readMultilineCommand line rest).2 - 1) rest
            omega
          have hdropS : ∀ l ∈ rest.drop ((readMultilineCommand line rest).2 - 1),
              isFromLine l = false :=
            fun l hl => hSr l (List.drop_subset _ _ hl)
          obtain ⟨hih1, hih2⟩ :=
            ih _ hlen hdropS _ _ _ _ hq (i + (readMultilineCommand line rest).2)
          have hsp2 : readMultilineCommand line
              (rest.take ((readMultilineCommand line rest).2 - 1) ++ P') =
              readMultilineCommand line rest :=
            readMultilineCommand_splice rest line P' hend
          have htk : (rest.take ((readMultilineCommand line rest).2 - 1)).length =
              (readMultilineCommand line rest).2 - 1 := by
            rw [List.length_take]
            have := readMultilineCommand_pos rest line
            exact Nat.min_eq_left (by omega)
          have hdropP : (rest.take ((readMultilineCommand line rest).2 - 1) ++ P').drop
              ((readMultilineCommand line rest).2 - 1) = P' := by
            have hdl := List.drop_left (rest.take ((readMultilineCommand line rest).2 - 1)) P'
            rwa [htk] at hdl
          have hidx : i + (line :: (rest.take ((readMultilineCommand line rest).2 - 1)
              ++ P')).length + k' =
              i + (readMultilineCommand line rest).2 + P'.length + k' := by
            simp only [List.length_cons, List.length_append, htk]
            have := readMultilineCommand_pos rest line
            omega
          have hidx2 : i + (line :: (rest.take ((readMultilineCommand line rest).2 - 1)
              ++ P')).length =
              i + (readMultilineCommand line rest).2 + P'.length := by
            simp only [List.length_cons, List.length_append, htk]
            have := readMultilineCommand_pos rest line
            omega
          rw [convertLoop_cons_run m org line rest i false hfrom hr]
          rw [convertLoop_cons_run m org line
            (rest.take ((readMultilineCommand line rest).2 - 1) ++ P') i false hfrom hr]
          rw [hsp2, hdropP, hidx, hidx2]
          simp only [runLineOut, hn', Bool.false_and, Bool.false_eq_true, if_false,
            Bool.or_false]
          constructor
          · rw [hih1]
            simp [List.append_assoc]
          · rw [hih2]
            by_cases ht : (strTrim (readMultilineCommand line rest).1 ==
                strTrim (convertRun m (readMultilineCommand line rest).1).converted) = true
            · rw [if_pos ht, if_pos ht]
            · rw [if_neg ht, if_neg ht]
              simp
      · have hr' := bool_eq_false hr
        rw [stageSplit_cons_other m line rest hr'] at hsp
        obtain ⟨⟨P', f', k', T'⟩, hq, hy⟩ := Option.map_eq_some'.mp hsp
        obtain ⟨rfl, rfl, rfl, rfl⟩ : line :: P' = P ∧ f' = f ∧ k' = k ∧ T' = T := by
          exact ⟨congrArg (fun q => q.1) hy, congrArg (fun q => q.2.1) hy,
            congrArg (fun q => q.2.2.1) hy, congrArg (fun q => q.2.2.2) hy⟩
        obtain ⟨hih1, hih2⟩ := ih rest h hSr _ _ _ _ hq (i + 1)
        have hidx : i + (line :: P').length + k' = i + 1 + P'.length + k' := by
          simp only [List.length_cons]
          omega
        have hidx2 : i + (line :: P').length = i + 1 + P'.length := by
          simp only [List.length_cons]
          omega
        by_cases hu : isUserMgmtLine line = true
        · rw [convertLoop_cons_user m org line rest i false hfrom hr' hu]
          rw [convertLoop_cons_user m org line P' i false hfrom hr' hu]
          rw [hidx, hidx2]
          simp only [userLineOut]
          constructor
          · rw [hih1]
            simp
          · rw [hih2]
            by_cases hcu : (line == convertUserManagement line) = true
            · rw [if_pos hcu, if_pos hcu]
            · rw [if_neg hcu, if_neg hcu]
              simp
        · rw [convertLoop_cons_other m org line rest i false hfrom hr' (bool_eq_false hu)]
          rw [convertLoop_cons_other m org line P' i false hfrom hr' (bool_eq_false hu)]
          rw [hidx, hidx2]
          constructor
          · rw [hih1]
            simp
          · rw [hih2]

/-- The lines before the first root-requiring command contain no further
root-requiring command. -/
theorem stageSplit_prefix_none (m : MappingsConfig) :
    ∀ (N : Nat) (S : List String), S.length ≤ N →
      ∀ P f k T, stageSplit m S = some (P, f, k, T) → stageSplit m P = none := by
  intro N
  induction N with
  | zero =>
    intro S h P f k T hsp
    have hz : S = [] := List.length_eq_zero.mp (Nat.le_zero.mp h)
    subst hz
    exact absurd hsp (by simp [stageSplit_nil])
  | succ N ih =>
    intro S h P f k T hsp
    cases S with
    | nil => exact absurd hsp (by simp [stageSplit_nil])
    | cons line rest =>
      simp only [List.length_cons, Nat.succ_le_succ_iff] at h
      by_cases hr : isRunLine line = true
      · rw [stageSplit_cons_run m line rest hr] at hsp
        by_cases hn : (convertRun m (readMultilineCommand line rest).1).needsRoot = true
        · rw [if_pos hn] at hsp
          have hP : [] = P := congrArg (fun q => q.1) (Option.some.inj hsp)
          rw [← hP]
          exact stageSplit_nil m
        · rw [if_neg hn] at hsp
          obtain ⟨⟨P', f', k', T'⟩, hq, hy⟩ := Option.map_eq_some'.mp hsp
          have hP : line :: (rest.take ((readMultilineCommand line rest).2 - 1) ++ P') = P :=
            congrArg (fun q => q.1) hy
          have hend : strEndsWith (strTrimEnd (readMultilineCommand line rest).1) "\\"
              = false := by
            rcases Bool.eq_false_or_eq_true
              (strEndsWith (strTrimEnd (readMultilineCommand line rest).1) "\\") with
              he | he
            · exfalso
              have hlenr := readMultilineCommand_ends rest line he
              have hz : rest.drop ((readMultilineCommand line rest).2 - 1) = [] := by
                apply List.length_eq_zero.mp
                rw [List.length_drop]
                omega
              rw [hz, stageSplit_nil] at hq
              exact absurd hq (by simp)
            · exact he
          have hsp2 : readMultilineCommand line
              (rest.take ((readMultilineCommand line rest).2 - 1) ++ P') =
              readMultilineCommand line rest :=
            readMultilineCommand_splice rest line P' hend
          have htk : (rest.take ((readMultilineCommand line rest).2 - 1)).length =
              (readMultilineCommand line rest).2 - 1 := by
            rw [List.length_take]
            have := readMultilineCommand_pos rest line
            exact Nat.min_eq_left (by omega)
          have hdropP : (rest.take ((readMultilineCommand line rest).2 - 1) ++ P').drop
              ((readMultilineCommand line rest).2 - 1) = P' := by
            have hdl := List.drop_left (rest.take ((readMultilineCommand line rest).2 - 1)) P'
            rwa [htk] at hdl
          have hlen : (rest.drop ((readMultilineCommand line rest).2 - 1)).length ≤ N := by
            have := List.length_drop ((readMultilineCommand line rest).2 - 1) rest
            omega
          have hrec := ih _ hlen _ _ _ _ hq
          rw [← hP]
          rw [stageSplit_cons_run m line
            (rest.take ((readMultilineCommand line rest).2 - 1) ++ P') hr]
          rw [hsp2, if_neg hn, hdropP, hrec]
          rfl
      · have hr' := bool_eq_false hr
        rw [stageSplit_cons_other m line rest hr'] at hsp
        obtain ⟨⟨P', f', k', T'⟩, hq, hy⟩ := Option.map_eq_some'.mp hsp
        have hP : line :: P' = P := congrArg (fun q => q.1) hy
        have hrec := ih rest h _ _ _ _ hq
        rw [← hP, stageSplit_cons_other m line P' hr', hrec]
        rfl

/-- C7: within a stage body (the FROM-free lines processed with a freshly
reset escalation flag, as the bridging conjunct shows every stage is), the
engine inserts a USER root directive exactly once — immediately before the
formatted conversion of the first RUN command whose rewrite installs
packages — and records exactly one injected change; a stage in which no RUN
conversion requires root gets no injected change at all. -/
theorem user_root_injected_once (m : MappingsConfig) (org : String) (S : List String)
    (i : Nat) (hS : ∀ l ∈ S, isFromLine l = false) :
    (∀ fl b, isFromLine fl = true →
      convertLoop m org (fl :: S) i b =
        fromLineOut i fl (convertFrom m org fl (checkStageHasRun S))
          (convertLoop m org S (i + 1) false)) ∧
    (stageSplit m S = none →
      stageNeedsRoot m S = false ∧
      injectedCount (convertLoop m org S i false).2 = 0) ∧
    (∀ P f k T, stageSplit m S = some (P, f, k, T) →
      (convertRun m f).needsRoot = true ∧
      stageNeedsRoot m S = true ∧
      (convertLoop m org S i false).1 =
        (convertLoop m org P i false).1 ++
          "USER root" :: (formatMultilineCommand (convertRun m f).converted k ++
            (convertLoop m org T (i + P.length + k) true).1) ∧
      injectedCount (convertLoop m org S i false).2 = 1) := by
  refine ⟨fun fl b hfl => convertLoop_cons_from m org fl S i b hfl, ?_, ?_⟩
  · intro hnone
    exact ⟨(stageSplit_none_iff m S.length S (Nat.le_refl _)).mp hnone,
      convertLoop_false_no_inject m org S.length S (Nat.le_refl _) hS hnone i⟩
  · intro P f k T hsp
    have hcmd := stageSplit_cmd m S.length S (Nat.le_refl _) P f k T hsp
    have hmem := stageSplit_mem m S.length S (Nat.le_refl _) P f k T hsp
    have hPnone := stageSplit_prefix_none m S.length S (Nat.le_refl _) P f k T hsp
    obtain ⟨heq1, heq2⟩ :=
      convertLoop_split_eq m org S.length S (Nat.le_refl _) hS P f k T hsp i
    have hneeds : stageNeedsRoot m S = true := by
      rcases Bool.eq_false_or_eq_true (stageNeedsRoot m S) with hb | hb
      · exact hb
      · exfalso
        rw [(stageSplit_none_iff m S.length S (Nat.le_refl _)).mpr hb] at hsp
        exact absurd hsp (by simp)
    refine ⟨hcmd.2, hneeds, heq1, ?_⟩
    have hPfree : ∀ l ∈ P, isFromLine l = false := fun l hl => hS l (hmem.1 l hl)
    have hTfree : ∀ l ∈ T, isFromLine l = false := fun l hl => hS l (hmem.2 l hl)
    have hPz : injectedCount (convertLoop m org P i false).2 = 0 :=
      convertLoop_false_no_inject m org P.length P (Nat.le_refl _) hPfree hPnone i
    have hTz : injectedCount (convertLoop m org T (i + P.length + k) true).2 = 0 :=
      convertLoop_true_no_inject m org T.length T (Nat.le_refl _) hTfree _
    have hfz : injectedCount
        (if strTrim f == strTrim (convertRun m f).converted then []
         else [⟨i + P.length, f, (convertRun m f).converted, .runC⟩]) = 0 := by
      have hfne : (f == "") = false := beq_eq_false_iff_ne.mpr hcmd.1
      by_cases ht : (strTrim f == strTrim (convertRun m f).converted) = true
      · rw [if_pos ht]
        rfl
      · rw [if_neg ht, injectedCount_cons]
        simp [injectedUserRoot, hfne, injectedCount]
    rw [heq2, injectedCount_append, injectedCount_cons, injectedCount_append]
    rw [hPz, hTz, hfz]
    simp [injectedUserRoot]

theorem user_root_injected_once_witness :
    (∀ l ∈ ["COPY a b", "RUN echo hi", "RUN apt-get install -y curl",
        "RUN apt-get install -y git"], isFromLine l = false) ∧
    stageSplit builtinMappings ["COPY a b", "RUN echo hi", "RUN apt-get install -y curl",
        "RUN apt-get install -y git"] =
      some (["COPY a b", "RUN echo hi"], "RUN apt-get install -y curl", 1,
        ["RUN apt-get install -y git"]) ∧
    (convertLoop builtinMappings "ORG" ["COPY a b", "RUN echo hi",
        "RUN apt-get install -y curl", "RUN apt-get install -y git"] 0 false).1 =
      ["COPY a b", "RUN echo hi", "USER root", "RUN apk add --no-cache curl",
        "RUN apk add --no-cache git"] ∧
    injectedCount (convertLoop builtinMappings "ORG" ["COPY a b", "RUN echo hi",
        "RUN apt-get install -y curl", "RUN apt-get install -y git"] 0 false).2 = 1 := by
  have hmain := user_root_injected_once builtinMappings "ORG"
    ["COPY a b", "RUN echo hi", "RUN apt-get install -y curl",
      "RUN apt-get install -y git"] 0 (by decide)
  have hsp : stageSplit builtinMappings ["COPY a b", "RUN echo hi",
      "RUN apt-get install -y curl", "RUN apt-get install -y git"] =
      some (["COPY a b", "RUN echo hi"], "RUN apt-get install -y curl", 1,
        ["RUN apt-get install -y git"]) := by decide
  obtain ⟨hroot, hneeds, heq, hcount⟩ := hmain.2.2 _ _ _ _ hsp
  refine ⟨by decide, hsp, ?_, hcount⟩
  rw [heq]
  decide

theorem unmapped_image_still_rewritten_witness :
    parseFrom "FROM myregistry/app:1.2.3" =
      some ⟨"", "myregistry/app", some "1.2.3", none, ""⟩ ∧
    convertFrom builtinMappings "ORG" "FROM myregistry/app:1.2.3" false =
      "FROM cgr.dev/ORG/myregistry/app:1.2" := by
  refine ⟨by decide, ?_⟩
  rw [unmapped_image_still_rewritten builtinMappings "ORG" "FROM myregistry/app:1.2.3"
    false ⟨"", "myregistry/app", some "1.2.3", none, ""⟩ (by decide) (by decide) (by decide)
    (by decide)]
  decide

end Dfc

